import Mathlib

/-!
Verification development for the context-curation and multi-pass-orchestration
subsystem of the lamps-code-review repository.

The TypeScript sources are embedded shallowly:

* `src/core/analyzer/ai/slices.ts`   — code slicing utilities
* `src/core/analyzer/ai/context.ts`  — per-pass context budgeting
* `src/core/analyzer/ai/index.ts`    — finding deduplication
* `src/core/analyzer/ai/prompts.ts`  — AI response parsing
* `src/cli/index.ts`                 — DependencyAnalyzer (graph + priorities)

Conventions used throughout the embedding:

* JavaScript strings are modelled as Lean `String` (sequences of `Char`);
  `.length`, `.slice`, `.split` operate on characters.
* JavaScript `number` values that the code only ever uses integrally are
  modelled as `Nat`/`Int`.  The two fractional constants that appear in
  comparisons are rewritten exactly: `sliceTokens > tokens * 0.8` on naturals
  is `5 * sliceTokens > 4 * tokens` (the double rounding of `0.8` cannot move
  the comparison across an integer for the magnitudes involved), and
  `usedTokens >= budget * 0.9` for the fixed budgets 40000 and 25000 uses the
  exact products 36000 and 22500 (both products are exact in binary64).
* `undefined`/`null`-able values become `Option`; JavaScript truthiness on
  strings (empty string is falsy) is written out explicitly at each use site.
* Fallible file reads (`fs.promises.readFile`) are modelled by a
  `diskContent : Option String` field on `FileInfo`: `none` models a read
  failure, `some s` a successful read returning `s`.
-/

/-! ## Generic character and string helpers -/

/-- The opening brace character, `{`. -/
def lbraceChar : Char := Char.ofNat 123

/-- The closing brace character, `}`. -/
def rbraceChar : Char := Char.ofNat 125

/-- The double-quote character. -/
def dquoteChar : Char := Char.ofNat 34

/-- The single-quote character. -/
def squoteChar : Char := Char.ofNat 39

/-- JavaScript regex `\s` / `String.prototype.trim` whitespace, restricted to
the whitespace characters that can realistically occur in source text
(space, tab, line feed, carriage return, vertical tab, form feed, NBSP). -/
def isJsWs (c : Char) : Bool :=
  c = ' ' || c = '\t' || c = '\n' || c = '\r' || c = Char.ofNat 11 ||
    c = Char.ofNat 12 || c = Char.ofNat 160

/-- JavaScript `String.prototype.trim`. -/
def jsTrim (s : String) : String :=
  String.mk (((s.data.dropWhile isJsWs).reverse.dropWhile isJsWs).reverse)

/-- JavaScript regex `\w` character class: `[A-Za-z0-9_]`. -/
def isWordChar (c : Char) : Bool :=
  c.isAlpha || c.isDigit || c = '_'

/-- Does `l` start with the character sequence `pat`? -/
def listStartsWith : List Char → List Char → Bool
  | [], _ => true
  | _ :: _, [] => false
  | p :: ps, c :: cs => p = c && listStartsWith ps cs

/-- Does `l` contain the character sequence `pat` (as contiguous infix)? -/
def listContainsSeq (pat : List Char) : List Char → Bool
  | [] => listStartsWith pat []
  | c :: rest => listStartsWith pat (c :: rest) || listContainsSeq pat rest

/-- Case-sensitive substring test, modelling `/lit/.test(s)` for a literal. -/
def strContains (s pat : String) : Bool :=
  listContainsSeq pat.data s.data

/-- Case-insensitive substring test, modelling `/lit/i.test(s)`. -/
def strContainsCI (s pat : String) : Bool :=
  listContainsSeq (pat.data.map Char.toLower) (s.data.map Char.toLower)

/-- Lowercase a string (ASCII, as used by `toLowerCase` on source text). -/
def strToLower (s : String) : String :=
  String.mk (s.data.map Char.toLower)

/-- Does `s` end with `pat` (kernel-reducible suffix test)? -/
def strEndsWith (s pat : String) : Bool :=
  listStartsWith pat.data.reverse s.data.reverse

/-- JavaScript `content.split('\n')`: splits at every line feed, keeping empty
pieces; the empty string yields `[""]`. -/
def splitLinesGo (cur : List Char) : List Char → List String
  | [] => [String.mk cur.reverse]
  | c :: rest =>
    if c = '\n' then String.mk cur.reverse :: splitLinesGo [] rest
    else splitLinesGo (c :: cur) rest

/-- See `splitLinesGo`. -/
def splitLines (s : String) : List String :=
  splitLinesGo [] s.data

/-- JavaScript `lines.join('\n')`. -/
def joinLines : List String → String
  | [] => ""
  | [s] => s
  | s :: rest => s ++ "\n" ++ joinLines rest

/-- JavaScript `lines.slice(a, b)` for `0 ≤ a` (the only way the embedded code
calls it): elements at indices `a, …, b-1`. -/
def linesSlice (lines : List String) (a b : Nat) : List String :=
  (lines.drop a).take (b - a)

/-! ## Core data model (src/types/index.ts) -/

/-- Finding severity; rank order is error > warning > info > hint. -/
inductive Severity where
  | error
  | warning
  | info
  | hint
deriving DecidableEq, Repr

/-- One reported issue (`Finding` in src/types/index.ts).  `line = none`
models an absent line; the code also treats `line = 0` as absent via
JavaScript truthiness. -/
structure Finding where
  (ruleId : String)
  (severity : Severity)
  (file : String)
  (line : Option Nat := none)
  (message : String)
  (suggestion : Option String := none)
deriving DecidableEq, Repr

/-- A contiguous line range of a file (`CodeSlice` in src/types/index.ts);
`startLine`/`endLine` are 1-based and inclusive. -/
structure CodeSlice where
  (startLine : Nat)
  (endLine : Nat)
  (content : String)
  (reason : String)
deriving DecidableEq, Repr

/-- One scanned file (`FileInfo` in src/types/index.ts).  `content` is the
optional preloaded text; `diskContent` models the outcome of the on-demand
`fs.promises.readFile` (`none` = the read fails). -/
structure FileInfo where
  (path : String)
  (relativePath : String)
  (extension : String)
  (size : Nat)
  (content : Option String := none)
  (diskContent : Option String := none)
deriving DecidableEq, Repr

/-- File category assigned by the DependencyAnalyzer. -/
inductive FileCategory where
  | entry
  | config
  | api
  | test
  | component
  | util
  | other
deriving DecidableEq, Repr

/-- One node of the dependency graph (`FileNode` in src/types/index.ts). -/
structure FileNode where
  (path : String)
  (imports : List String)
  (importedBy : List String)
  (exports : List String)
  (category : FileCategory)
  (size : Nat)
  (priority : Option Int := none)
deriving DecidableEq, Repr

/-- The dependency graph (`DependencyGraph`): the `files` map is modelled as
an insertion-ordered association list with unique keys, mirroring a JS `Map`. -/
structure DependencyGraph where
  (files : List (String × FileNode))
  (entryPoints : List String)
  (configFiles : List String)
  (testFiles : List String)
  (apiFiles : List String)
deriving DecidableEq, Repr

/-- A file staged for one AI pass (`ContextFile`): either full `content` or a
`slices` list, with the inclusion reason. -/
structure ContextFile where
  (path : String)
  (content : Option String := none)
  (slices : Option (List CodeSlice) := none)
  (reason : String)
  (priority : Nat)
deriving DecidableEq, Repr

/-- The input to the context builders (`AnalysisContext`), restricted to the
fields the builders read: the scanned file list and the detected framework
names (the latter are only copied into metadata). -/
structure AnalysisContext where
  (files : List FileInfo)
  (frameworks : List String := [])
deriving DecidableEq, Repr

/-- The result of one context builder (`ReviewContext`), with its metadata
fields inlined. -/
structure ReviewContext where
  (pass : String)
  (files : List ContextFile)
  (totalFiles : Nat)
  (totalTokenEstimate : Nat)
  (frameworks : List String)
  (focusAreas : List String)
  (fullFileTree : Option (List String) := none)
deriving DecidableEq, Repr

/-! ## src/core/analyzer/ai/slices.ts -/

/-- `CONTEXT_LINES`: context lines around a point of interest. -/
def CONTEXT_LINES : Nat := 10

/-- `MAX_SLICE_SIZE`: maximum slice size in characters. -/
def MAX_SLICE_SIZE : Nat := 5000

/-- Scan (already lowercased) characters for `/raw\s*\(/`. -/
def rawCallSearch : List Char → Bool
  | [] => false
  | 'r' :: 'a' :: 'w' :: rest =>
    ((rest.dropWhile isJsWs).headD ' ' = '(') || rawCallSearch ('a' :: 'w' :: rest)
  | _ :: rest => rawCallSearch rest

/-- `SECURITY_PATTERNS.some(p => p.test(line))`: the nine security-sensitive
regexes of slices.ts, each an alternation of literals (plus `raw\s*\(`),
case-insensitive where the source regex carries the `i` flag. -/
def securityLineMatch (line : String) : Bool :=
  let low := line.data.map Char.toLower
  let raw := line.data
  -- /(?:password|secret|token|api[_-]?key|credential|auth)/i
  (listContainsSeq "password".data low || listContainsSeq "secret".data low ||
   listContainsSeq "token".data low || listContainsSeq "apikey".data low ||
   listContainsSeq "api_key".data low || listContainsSeq "api-key".data low ||
   listContainsSeq "credential".data low || listContainsSeq "auth".data low) ||
  -- /(?:process\.env\.|environ\[|getenv\()/
  (listContainsSeq "process.env.".data raw || listContainsSeq "environ[".data raw ||
   listContainsSeq "getenv(".data raw) ||
  -- /(?:eval|exec|Function\(|subprocess|shell)/
  (listContainsSeq "eval".data raw || listContainsSeq "exec".data raw ||
   listContainsSeq "Function(".data raw || listContainsSeq "subprocess".data raw ||
   listContainsSeq "shell".data raw) ||
  -- /(?:innerHTML|dangerouslySetInnerHTML|v-html)/
  (listContainsSeq "innerHTML".data raw ||
   listContainsSeq "dangerouslySetInnerHTML".data raw ||
   listContainsSeq "v-html".data raw) ||
  -- /(?:sql|query|execute|raw\s*\()/i
  (listContainsSeq "sql".data low || listContainsSeq "query".data low ||
   listContainsSeq "execute".data low || rawCallSearch low) ||
  -- /(?:cookie|session|localStorage|sessionStorage)/
  (listContainsSeq "cookie".data raw || listContainsSeq "session".data raw ||
   listContainsSeq "localStorage".data raw || listContainsSeq "sessionStorage".data raw) ||
  -- /(?:cors|origin|access-control)/i
  (listContainsSeq "cors".data low || listContainsSeq "origin".data low ||
   listContainsSeq "access-control".data low) ||
  -- /(?:jwt|bearer|oauth)/i
  (listContainsSeq "jwt".data low || listContainsSeq "bearer".data low ||
   listContainsSeq "oauth".data low) ||
  -- /(?:bcrypt|argon|scrypt|pbkdf|hash)/i
  (listContainsSeq "bcrypt".data low || listContainsSeq "argon".data low ||
   listContainsSeq "scrypt".data low || listContainsSeq "pbkdf".data low ||
   listContainsSeq "hash".data low)

/-- Strip a literal from the front of a character list, or fail. -/
def stripLit (pat : String) (l : List Char) : Option (List Char) :=
  if listStartsWith pat.data l then some (l.drop pat.data.length) else none

/-- Match `\s+` (at least one whitespace character), consuming maximally.
Maximal munch is exact here because every continuation the embedded regexes
use starts with a non-whitespace character. -/
def skipWs1 : List Char → Option (List Char)
  | c :: rest => if isJsWs c then some (rest.dropWhile isJsWs) else none
  | [] => none

/-- Match an optional `(?:kw\s+)?` group (try taking the keyword first, then
without it) and continue with `k`. -/
def matchOptKwWs (kw : String) (k : List Char → Bool) (l : List Char) : Bool :=
  (match stripLit kw l with
   | some r =>
     match skipWs1 r with
     | some r2 => k r2
     | none => false
   | none => false) || k l

/-- Does the list start with a `\w` character? -/
def hasWordCharHead : List Char → Bool
  | c :: _ => isWordChar c
  | [] => false

/-- Tail of IMPORTANT_PATTERNS[0]: `(?:function|class|const|interface|type)`. -/
def importantP1Tail (l : List Char) : Bool :=
  listStartsWith "function".data l || listStartsWith "class".data l ||
    listStartsWith "const".data l || listStartsWith "interface".data l ||
    listStartsWith "type".data l

/-- IMPORTANT_PATTERNS[0]:
`^export\s+(?:default\s+)?(?:async\s+)?(?:function|class|const|interface|type)`
(the `m` flag is irrelevant because the code tests single lines). -/
def importantP1 (l : List Char) : Bool :=
  match stripLit "export" l with
  | some r =>
    match skipWs1 r with
    | some r2 => matchOptKwWs "default" (matchOptKwWs "async" importantP1Tail) r2
    | none => false
  | none => false

/-- Tail of IMPORTANT_PATTERNS[1]: `function\s+\w+`. -/
def importantP2Tail (l : List Char) : Bool :=
  match stripLit "function" l with
  | some r =>
    match skipWs1 r with
    | some r2 => hasWordCharHead r2
    | none => false
  | none => false

/-- IMPORTANT_PATTERNS[1]: `^(?:async\s+)?function\s+\w+`. -/
def importantP2 (l : List Char) : Bool :=
  matchOptKwWs "async" importantP2Tail l

/-- IMPORTANT_PATTERNS[2]: `^class\s+\w+`. -/
def importantP3 (l : List Char) : Bool :=
  match stripLit "class" l with
  | some r =>
    match skipWs1 r with
    | some r2 => hasWordCharHead r2
    | none => false
  | none => false

/-- Match `\([^)]*\)\s*=>`.  `[^)]*` cannot consume `)`, so greedy matching
up to the first `)` is exact. -/
def parenArrow : List Char → Bool
  | '(' :: rest =>
    (match rest.dropWhile (fun c => !(c = ')')) with
     | ')' :: rest2 => listStartsWith "=>".data (rest2.dropWhile isJsWs)
     | _ => false)
  | _ => false

/-- Match `\w+\s*=\s*(?:async\s+)?\([^)]*\)\s*=>`.  Maximal munch on `\w+` is
exact because the continuation requires `\s*=` and word characters are
neither whitespace nor `=`. -/
def assignArrow : List Char → Bool
  | c :: rest =>
    if isWordChar c then
      match (rest.dropWhile isWordChar).dropWhile isJsWs with
      | '=' :: rest2 =>
        let r3 := rest2.dropWhile isJsWs
        (match stripLit "async" r3 with
         | some r4 =>
           match skipWs1 r4 with
           | some r5 => parenArrow r5
           | none => false
         | none => false) || parenArrow r3
      | _ => false
    else false
  | [] => false

/-- IMPORTANT_PATTERNS[3]:
`^(?:export\s+)?(?:default\s+)?(?:async\s+)?(?:\([^)]*\)\s*=>|\w+\s*=\s*(?:async\s+)?\([^)]*\)\s*=>)`. -/
def importantP4 (l : List Char) : Bool :=
  matchOptKwWs "export"
    (matchOptKwWs "default"
      (matchOptKwWs "async" (fun r => parenArrow r || assignArrow r))) l

/-- `IMPORTANT_PATTERNS.some(p => p.test(line))`. -/
def importantLineMatch (line : String) : Bool :=
  importantP1 line.data || importantP2 line.data || importantP3 line.data ||
    importantP4 line.data

/-- `/^export\s+/.test(line.trim())` from `extractExportSlices`. -/
def exportLineCheck (line : String) : Bool :=
  match (jsTrim line).data with
  | 'e' :: 'x' :: 'p' :: 'o' :: 'r' :: 't' :: c :: _ => isJsWs c
  | _ => false

/-- `estimateTokens`: `Math.ceil(content.length / 4)`. -/
def estimateTokens (content : String) : Nat :=
  (content.length + 3) / 4

/-- `extractContextSlice`: the ±`CONTEXT_LINES` window around `lineNum`,
truncated with a trailing marker when over `MAX_SLICE_SIZE` characters.
(The TS signature allows `null` but the function always returns a slice.) -/
def extractContextSlice (lines : List String) (lineNum : Nat) (reason : String) : CodeSlice :=
  let startLine := max 1 (lineNum - CONTEXT_LINES)
  let endLine := min lines.length (lineNum + CONTEXT_LINES)
  let content := joinLines (linesSlice lines (startLine - 1) endLine)
  if content.length > MAX_SLICE_SIZE then
    { startLine := startLine, endLine := endLine,
      content := content.take MAX_SLICE_SIZE ++ "\n// ... truncated", reason := reason }
  else
    { startLine := startLine, endLine := endLine, content := content, reason := reason }

/-- One character of the brace-tracking loop in `extractDefinitionSlice`:
the state is `(braceCount, started)`. -/
def braceStep (acc : Int × Bool) (c : Char) : Int × Bool :=
  if c = lbraceChar || c = '(' then (acc.1 + 1, true)
  else if c = rbraceChar || c = ')' then (acc.1 - 1, acc.2)
  else acc

/-- The line loop of `extractDefinitionSlice`: called on `lines.drop (startLineNum-1)`
with `i = startLineNum - 1`; returns the final `endLine` (the JS loop exits when
all braces close, after 50 lines, or at end of file). -/
def defSliceGo (startLineNum : Nat) :
    List String → Nat → Int → Bool → Nat → Nat
  | [], _, _, _, prevEnd => prevEnd
  | line :: rest, i, braceCount, started, _ =>
    let s := line.data.foldl braceStep (braceCount, started)
    let endLine := i + 1
    if s.2 && s.1 = 0 then endLine
    else if i + 1 > startLineNum + 50 then endLine
    else defSliceGo startLineNum rest (i + 1) s.1 s.2 endLine

/-- `extractDefinitionSlice`: brace/paren-balanced block starting at
`startLineNum`; definitions over `MAX_SLICE_SIZE` characters are dropped. -/
def extractDefinitionSlice (lines : List String) (startLineNum : Nat) : Option CodeSlice :=
  let endLine := defSliceGo startLineNum (lines.drop (startLineNum - 1))
      (startLineNum - 1) 0 false startLineNum
  let content := joinLines (linesSlice lines (startLineNum - 1) endLine)
  if content.length > MAX_SLICE_SIZE then none
  else some { startLine := startLineNum, endLine := endLine, content := content,
              reason := "Function/class definition" }

/-- `extractExportSlices`: a definition slice (reason "Export") for every line
whose trimmed text starts with `export` plus whitespace. -/
def extractExportSlices (lines : List String) : List CodeSlice :=
  (lines.enum).filterMap (fun p =>
    if exportLineCheck p.2 then
      (extractDefinitionSlice lines (p.1 + 1)).map (fun sl => { sl with reason := "Export" })
    else none)

/-- `sliceOverlaps`: does the new slice share a line with an accepted one? -/
def sliceOverlaps (existing : List CodeSlice) (n : CodeSlice) : Bool :=
  existing.any (fun s => n.startLine ≤ s.endLine && s.startLine ≤ n.endLine)

/-- `SliceOptions` with the destructuring defaults of `extractSlices`. -/
structure SliceOptions where
  (staticFindings : List Finding := [])
  (includeExports : Bool := true)
  (includeSecurity : Bool := true)
  (includeDefinitions : Bool := true)
  (maxTotalSize : Int := 20000)
deriving DecidableEq, Repr

/-- Stage 1 of `extractSlices`: windows around static findings (a finding
participates only when its file matches and its line is truthy, i.e. present
and nonzero).  State is `(accepted slices, totalSize)`. -/
def slicesStage1 (lines : List String) (filePath : String) (cap : Int)
    (findings : List Finding) (st : List CodeSlice × Nat) : List CodeSlice × Nat :=
  findings.foldl (fun st f =>
    if f.file = filePath then
      match f.line with
      | some l =>
        if l ≠ 0 then
          let sl := extractContextSlice lines l "Static analysis flagged this area"
          if (st.2 + sl.content.length : Int) ≤ cap then
            (st.1 ++ [sl], st.2 + sl.content.length)
          else st
        else st
      | none => st
    else st) st

/-- Stage 2 of `extractSlices`: windows around security-sensitive lines
(size check, then overlap check). -/
def slicesStage2 (lines : List String) (cap : Int)
    (st : List CodeSlice × Nat) : List CodeSlice × Nat :=
  (lines.enum).foldl (fun st p =>
    if securityLineMatch p.2 then
      let sl := extractContextSlice lines (p.1 + 1) "Security-sensitive code"
      if (st.2 + sl.content.length : Int) ≤ cap then
        if !sliceOverlaps st.1 sl then (st.1 ++ [sl], st.2 + sl.content.length)
        else st
      else st
    else st) st

/-- Stage 3 of `extractSlices`: export slices (size check, then overlap check). -/
def slicesStage3 (lines : List String) (cap : Int)
    (st : List CodeSlice × Nat) : List CodeSlice × Nat :=
  (extractExportSlices lines).foldl (fun st sl =>
    if (st.2 + sl.content.length : Int) ≤ cap then
      if !sliceOverlaps st.1 sl then (st.1 ++ [sl], st.2 + sl.content.length)
      else st
    else st) st

/-- Stage 4 of `extractSlices`: definition slices at lines matching
IMPORTANT_PATTERNS (size check, then overlap check). -/
def slicesStage4 (lines : List String) (cap : Int)
    (st : List CodeSlice × Nat) : List CodeSlice × Nat :=
  (lines.enum).foldl (fun st p =>
    if importantLineMatch p.2 then
      match extractDefinitionSlice lines (p.1 + 1) with
      | some sl =>
        if (st.2 + sl.content.length : Int) ≤ cap then
          if !sliceOverlaps st.1 sl then (st.1 ++ [sl], st.2 + sl.content.length)
          else st
        else st
      | none => st
    else st) st

/-- `combineReasons`: equal reasons collapse; distinct ones are joined with
", " in first-seen order (the two-element `Set` keeps insertion order). -/
def combineReasons (r1 r2 : String) : String :=
  if r1 = r2 then r1 else r1 ++ ", " ++ r2

/-- Stable insertion of a slice into a list sorted ascending by `startLine`
(equal keys keep the earlier element first, matching the stable JS sort). -/
def sortSlicesInsert (a : CodeSlice) : List CodeSlice → List CodeSlice
  | [] => [a]
  | b :: l => if a.startLine ≤ b.startLine then a :: b :: l else b :: sortSlicesInsert a l

/-- Stable sort by `startLine`, modelling `[...slices].sort((a, b) => a.startLine - b.startLine)`. -/
def sortSlicesByStart : List CodeSlice → List CodeSlice
  | [] => []
  | x :: xs => sortSlicesInsert x (sortSlicesByStart xs)

/-- The merge loop of `mergeOverlappingSlices`: `current` is merged with the
next slice when the latter starts at or before `current.endLine + 1`. -/
def mergeGo (current : CodeSlice) : List CodeSlice → List CodeSlice
  | [] => [current]
  | next :: rest =>
    if next.startLine ≤ current.endLine + 1 then
      mergeGo
        { current with
          endLine := max current.endLine next.endLine
          reason := combineReasons current.reason next.reason } rest
    else current :: mergeGo next rest

/-- `mergeOverlappingSlices`: sort by start line, then merge overlapping or
adjacent slices. -/
def mergeOverlappingSlices (slices : List CodeSlice) : List CodeSlice :=
  match sortSlicesByStart slices with
  | [] => []
  | s :: rest => mergeGo s rest

/-- `extractSlices`: the four collection stages followed by the merge. -/
def extractSlices (content : String) (filePath : String)
    (options : SliceOptions := {}) : List CodeSlice :=
  let lines := splitLines content
  let st1 := slicesStage1 lines filePath options.maxTotalSize options.staticFindings ([], 0)
  let st2 := if options.includeSecurity then slicesStage2 lines options.maxTotalSize st1 else st1
  let st3 := if options.includeExports then slicesStage3 lines options.maxTotalSize st2 else st2
  let st4 := if options.includeDefinitions then slicesStage4 lines options.maxTotalSize st3 else st3
  mergeOverlappingSlices st4.1

/-- `reconstructSliceContent`: re-slice every range from the original text. -/
def reconstructSliceContent (content : String) (slices : List CodeSlice) : List CodeSlice :=
  let lines := splitLines content
  slices.map (fun sl =>
    { sl with content := joinLines (linesSlice lines (sl.startLine - 1) sl.endLine) })

/-! ## src/core/analyzer/ai/context.ts -/

/-- The three AI pass types (`AIPassType`). -/
inductive AIPassType where
  | architecture
  | deepDive
  | security
deriving DecidableEq, Repr

/-- `TOKEN_BUDGETS`: fixed token budget for each pass. -/
def TOKEN_BUDGETS : AIPassType → Nat
  | .architecture => 15000
  | .deepDive => 40000
  | .security => 25000

/-- `SLICE_THRESHOLD`: file size threshold for slicing (50 KB). -/
def SLICE_THRESHOLD : Nat := 50 * 1024

/-- `loadContent`: the preloaded text when truthy, else the (possibly
failing) disk read.  An empty preloaded string is falsy in JS, so it falls
through to the disk read. -/
def loadContent (file : FileInfo) : Option String :=
  match file.content with
  | some c => if c = "" then file.diskContent else some c
  | none => file.diskContent

/-- The text a `ContextFile` contributes to the token estimate:
`cf.content || cf.slices?.map(s => s.content).join('\n') || ''`. -/
def contextFileSliceText (cf : ContextFile) : String :=
  match cf.slices with
  | some sl => joinLines (sl.map (fun s => s.content))
  | none => ""

/-- See `contextFileSliceText`; full truthiness chain. -/
def contextFileText (cf : ContextFile) : String :=
  match cf.content with
  | some c => if c = "" then contextFileSliceText cf else c
  | none => contextFileSliceText cf

/-- `estimateTokens(cf.content || cf.slices?.map(s => s.content).join('\n') || '')`. -/
def contextFileTokens (cf : ContextFile) : Nat :=
  estimateTokens (contextFileText cf)

/-- `estimateTokens(cf.content || '')` (used for config and env files). -/
def contextFileContentTokens (cf : ContextFile) : Nat :=
  estimateTokens (match cf.content with | some c => c | none => "")

/-- `buildContextFile`: full content for small in-budget files; otherwise
slices, with full-file fallback when slices cost more than 80% of the full
file.  `sliceTokens > tokens * 0.8` is written exactly as
`5 * sliceTokens > 4 * tokens` (see the header note on binary64). -/
def buildContextFile (file : FileInfo) (reason : String) (remainingBudget : Int)
    (findings : List Finding := []) : Option ContextFile :=
  match loadContent file with
  | none => none
  | some content =>
    if content = "" then none
    else
      let tokens := estimateTokens content
      if file.size < SLICE_THRESHOLD ∧ (tokens : Int) < remainingBudget then
        some { path := file.relativePath, content := some content,
               reason := reason, priority := 50 }
      else
        let slices := extractSlices content file.relativePath
          { staticFindings := findings, includeExports := true,
            includeSecurity := true, includeDefinitions := true,
            maxTotalSize := min (remainingBudget * 4) 20000 }
        let reconstructed := reconstructSliceContent content slices
        let sliceContent := joinLines (reconstructed.map (fun s => s.content))
        let sliceTokens := estimateTokens sliceContent
        if (sliceTokens : Int) > remainingBudget then none
        else if 5 * sliceTokens > 4 * tokens ∧ (tokens : Int) < remainingBudget then
          some { path := file.relativePath, content := some content,
                 reason := reason, priority := 50 }
        else
          some { path := file.relativePath, slices := some reconstructed,
                 reason := reason ++ " (sliced)", priority := 50 }

/-- Stable insertion into a list sorted ascending (JS default string sort). -/
def sortStringsInsert (a : String) : List String → List String
  | [] => [a]
  | b :: l => if a ≤ b then a :: b :: l else b :: sortStringsInsert a l

/-- Stable ascending sort of strings, modelling `paths.sort()`. -/
def sortStrings : List String → List String
  | [] => []
  | x :: xs => sortStringsInsert x (sortStrings xs)

/-- `buildFileTree`: sorted relative paths joined by newlines. -/
def buildFileTree (files : List FileInfo) : String :=
  joinLines (sortStrings (files.map (fun f => f.relativePath)))

/-- `extractMentionedFiles`: files named by findings, first-match, deduplicated. -/
def extractMentionedFiles (findings : List Finding) (allFiles : List FileInfo) :
    List FileInfo :=
  findings.foldl (fun mentioned f =>
    if f.file ≠ "" then
      match allFiles.find? (fun fi => fi.relativePath = f.file) with
      | some file =>
        if mentioned.contains file then mentioned else mentioned ++ [file]
      | none => mentioned
    else mentioned) []

/-- Generic shape of the `buildContextFile` accumulation loops shared by the
three context builders: for each item, look up its file, test the loop"s
guard, call `buildContextFile` with the remaining budget, and on success
append the context file and add its token estimate.  The state is
`(files, usedTokens)`.  Each instantiation below names the source loop it
models. -/
def passFoldBCF {α : Type} (budget : Nat) (fileOf : α → Option FileInfo)
    (reasonOf : α → String) (findingsOf : α → List Finding)
    (tokensOf : ContextFile → Nat)
    (guard : List ContextFile × Nat → FileInfo → Bool)
    (items : List α) (st : List ContextFile × Nat) : List ContextFile × Nat :=
  items.foldl (fun st it =>
    match fileOf it with
    | some file =>
      if guard st file then
        match buildContextFile file (reasonOf it) ((budget : Int) - st.2) (findingsOf it) with
        | some cf => (st.1 ++ [cf], st.2 + tokensOf cf)
        | none => st
      else st
    | none => st) st

/-- The package-manifest loop of `buildArchitectureContext` (direct
`loadContent`, full text, priority 100). -/
def buildArchPackages (ctxFiles : List FileInfo) (budget : Nat)
    (st : List ContextFile × Nat) : List ContextFile × Nat :=
  ["package.json", "pyproject.toml", "requirements.txt"].foldl (fun st pkg =>
    match ctxFiles.find? (fun f => f.relativePath = pkg) with
    | some file =>
      match loadContent file with
      | some content =>
        if content ≠ "" then
          let tokens := estimateTokens content
          if st.2 + tokens < budget then
            (st.1 ++ [{ path := file.relativePath, content := some content,
                        reason := "Package configuration", priority := 100 }],
             st.2 + tokens)
          else st
        else st
      | none => st
    | none => st) st

/-- The README step of `buildArchitectureContext`: pushes the README (without
updating the token count, exactly as the source does). -/
def buildArchReadme (ctxFiles : List FileInfo) (budget : Nat)
    (st : List ContextFile × Nat) : List ContextFile × Nat :=
  match ctxFiles.find? (fun f => strEndsWith (strToLower f.relativePath) "readme.md") with
  | some readme =>
    match loadContent readme with
    | some content =>
      if content ≠ "" then
        let tokens := estimateTokens content
        if st.2 + tokens < budget then
          (st.1 ++ [{ path := readme.relativePath, content := some content,
                      reason := "Project documentation", priority := 50 }], st.2)
        else st
      else st
    | none => st
  | none => st

/-- `buildArchitectureContext`: file tree, manifests, up to five entry
points, up to five config files, README. -/
def buildArchitectureContext (context : AnalysisContext) (graph : DependencyGraph) :
    ReviewContext :=
  let budget := TOKEN_BUDGETS .architecture
  let fileTree := buildFileTree context.files
  let used0 := estimateTokens fileTree
  let st1 := buildArchPackages context.files budget ([], used0)
  -- entry point loop: up to 5 entry points through `buildContextFile`
  let entryFiles := ((graph.entryPoints.map
    (fun p => context.files.find? (fun f => f.relativePath = p))).filterMap id).take 5
  let st2 := passFoldBCF budget some (fun _ => "Entry point") (fun _ => [])
    contextFileTokens (fun _ _ => true) entryFiles st1
  -- config loop: up to 5 config files; the token update uses
  -- `estimateTokens(contextFile.content || '')`
  let configFiles := ((graph.configFiles.map
    (fun p => context.files.find? (fun f => f.relativePath = p))).filterMap id).take 5
  let st3 := passFoldBCF budget some (fun _ => "Configuration") (fun _ => [])
    contextFileContentTokens (fun _ _ => true) configFiles st2
  let st4 := buildArchReadme context.files budget st3
  { pass := "architecture", files := st4.1, totalFiles := context.files.length,
    totalTokenEstimate := st4.2, frameworks := context.frameworks,
    focusAreas := ["Project structure", "Dependencies", "Entry points", "Configuration"],
    fullFileTree := some (sortStrings (context.files.map (fun f => f.relativePath))) }

/-- `(b.priority || 0)` as used by the node sorts. -/
def nodePriority (n : FileNode) : Int :=
  match n.priority with
  | some p => p
  | none => 0

/-- Stable insertion for the descending priority sort. -/
def sortNodesInsert (a : FileNode) : List FileNode → List FileNode
  | [] => [a]
  | b :: l =>
    if nodePriority a ≥ nodePriority b then a :: b :: l else b :: sortNodesInsert a l

/-- Stable descending sort by `(priority || 0)`, modelling
`.sort((a, b) => (b.priority || 0) - (a.priority || 0))`. -/
def sortNodesByPriorityDesc : List FileNode → List FileNode
  | [] => []
  | x :: xs => sortNodesInsert x (sortNodesByPriorityDesc xs)

/-- `${node.priority}` in the stage-4 reason string. -/
def priorityDisplay (n : FileNode) : String :=
  match n.priority with
  | some p => toString p
  | none => "undefined"

/-- Stage 4 of `buildDeepDiveContext`: remaining priority-sorted files until
90% of the budget is used.  `usedTokens >= budget * 0.9` is written exactly
as `10 * usedTokens ≥ 9 * budget` (36000 for the fixed 40000 budget; the
binary64 product is exact there). -/
def deepDiveStage4 (ctxFiles : List FileInfo) (budget : Nat) :
    List FileNode → List ContextFile × Nat → List ContextFile × Nat
  | [], st => st
  | node :: rest, st =>
    if 10 * st.2 ≥ 9 * budget then st
    else
      match ctxFiles.find? (fun f => f.relativePath = node.path) with
      | some file =>
        if st.1.any (fun cf => cf.path = file.relativePath) then
          deepDiveStage4 ctxFiles budget rest st
        else
          match buildContextFile file ("Priority score: " ++ priorityDisplay node)
              ((budget : Int) - st.2) with
          | some cf => deepDiveStage4 ctxFiles budget rest (st.1 ++ [cf], st.2 + contextFileTokens cf)
          | none => deepDiveStage4 ctxFiles budget rest st
      | none => deepDiveStage4 ctxFiles budget rest st

/-- `buildDeepDiveContext`: flagged files, architecture-mentioned files,
high-connectivity files, then priority-sorted fill to 90% of budget. -/
def buildDeepDiveContext (context : AnalysisContext) (graph : DependencyGraph)
    (staticFindings architectureFindings : List Finding) : ReviewContext :=
  let budget := TOKEN_BUDGETS .deepDive
  let sortedNodes := sortNodesByPriorityDesc
    ((graph.files.map (fun p => p.2)).filter
      (fun n => !(n.category = FileCategory.test) && !(n.category = FileCategory.config)))
  -- 1. files with static analysis findings
  let filesWithFindings := staticFindings.map (fun f => f.file)
  let flaggedFiles := context.files.filter (fun f => filesWithFindings.contains f.relativePath)
  let st1 := passFoldBCF budget some
    (fun f => "Static analysis flagged (" ++
      toString (staticFindings.filter (fun fd => fd.file = f.relativePath)).length ++ " issues)")
    (fun f => staticFindings.filter (fun fd => fd.file = f.relativePath))
    contextFileTokens (fun _ _ => true) flaggedFiles ([], 0)
  -- 2. files mentioned in architecture findings, not already included
  let st2 := passFoldBCF budget some (fun _ => "Flagged in architecture review")
    (fun _ => []) contextFileTokens
    (fun st file => !st.1.any (fun cf => cf.path = file.relativePath))
    (extractMentionedFiles architectureFindings context.files) st1
  -- 3. up to 10 high-connectivity files
  let highConnectivity := (sortedNodes.filter (fun n => n.importedBy.length ≥ 3)).take 10
  let st3 := passFoldBCF budget
    (fun n => context.files.find? (fun f => f.relativePath = n.path))
    (fun n => "High connectivity (" ++ toString n.importedBy.length ++ " dependents)")
    (fun _ => []) contextFileTokens
    (fun st file => !st.1.any (fun cf => cf.path = file.relativePath))
    highConnectivity st2
  -- 4. fill remaining budget
  let st4 := deepDiveStage4 context.files budget sortedNodes st3
  { pass := "deep-dive", files := st4.1, totalFiles := st4.1.length,
    totalTokenEstimate := st4.2, frameworks := context.frameworks,
    focusAreas := ["Code quality", "Bugs", "Performance", "Best practices"] }

/-- The 15 security-sensitive path patterns of `buildSecurityContext`
(each a case-insensitive literal). -/
def securityCtxPatterns : List String :=
  ["auth", "login", "session", "token", "password", "secret", "credential",
   "middleware", "permission", "role", "crypto", "encrypt", "hash",
   "sanitize", "validate"]

/-- `securityPatterns.some(p => p.test(f.relativePath))`. -/
def securityPathMatchCtx (p : String) : Bool :=
  securityCtxPatterns.any (fun pat => strContainsCI p pat)

/-- The `config.*\.(ts|js|json)$` branch of the env-file regex: a `config`
occurrence followed (without newline, `.` does not match `\n`) by the final
dot of a `.ts`/`.js`/`.json` ending. -/
def configDotTailGo : List Char → Bool
  | [] => false
  | c :: rest =>
    if c = '\n' then false
    else (c = '.' && (rest = "ts".data || rest = "js".data || rest = "json".data)) ||
      configDotTailGo rest

/-- Search every position for `config` followed by `configDotTailGo`. -/
def configTailSearch : List Char → Bool
  | [] => false
  | c :: rest =>
    (match stripLit "config" (c :: rest) with
     | some r => configDotTailGo r
     | none => false) || configTailSearch rest

/-- `/\.env\.example|\.env\.sample|config.*\.(ts|js|json)$/i.test(p)`. -/
def envConfigMatch (p : String) : Bool :=
  let low := strToLower p
  strContains low ".env.example" || strContains low ".env.sample" ||
    configTailSearch low.data

/-- `dbPatterns.some(p => p.test(f.relativePath))`:
`model|schema|database|db\.|migration|query`, case-insensitive. -/
def dbPathMatch (p : String) : Bool :=
  ["model", "schema", "database", "db.", "migration", "query"].any
    (fun pat => strContainsCI p pat)

/-- `buildSecurityContext`: API routes, security-named files, env/config
files, database/model files (the last gated at 90% of budget:
`usedTokens < budget * 0.9`, written `10 * usedTokens < 9 * budget`). -/
def buildSecurityContext (context : AnalysisContext) (graph : DependencyGraph) :
    ReviewContext :=
  let budget := TOKEN_BUDGETS .security
  -- 1. API route files
  let apiFiles := ((graph.apiFiles.map
    (fun p => context.files.find? (fun f => f.relativePath = p))).filterMap id)
  let st1 := passFoldBCF budget some (fun _ => "API route") (fun _ => [])
    contextFileTokens (fun _ _ => true) apiFiles ([], 0)
  -- 2. security-sensitive files by name
  let securityFiles := context.files.filter (fun f => securityPathMatchCtx f.relativePath)
  let st2 := passFoldBCF budget some (fun _ => "Security-sensitive file") (fun _ => [])
    contextFileTokens
    (fun st file => !st.1.any (fun cf => cf.path = file.relativePath))
    securityFiles st1
  -- 3. environment/config files; token update is `estimateTokens(content || '')`
  let envFiles := context.files.filter (fun f => envConfigMatch f.relativePath)
  let st3 := passFoldBCF budget some (fun _ => "Environment/Config") (fun _ => [])
    contextFileContentTokens
    (fun st file => !st.1.any (fun cf => cf.path = file.relativePath))
    envFiles st2
  -- 4. database/model files, stopping at 90% of budget
  let dbFiles := context.files.filter (fun f => dbPathMatch f.relativePath)
  let st4 := passFoldBCF budget some (fun _ => "Database/Model") (fun _ => [])
    contextFileTokens
    (fun st file => !st.1.any (fun cf => cf.path = file.relativePath) &&
      10 * st.2 < 9 * budget)
    dbFiles st3
  { pass := "security", files := st4.1, totalFiles := st4.1.length,
    totalTokenEstimate := st4.2, frameworks := context.frameworks,
    focusAreas := ["Authentication", "Authorization", "Input validation",
      "Data exposure", "Injection vulnerabilities"] }

/-! ## src/core/analyzer/ai/index.ts — finding deduplication -/

/-- `severityOrder`: error 4, warning 3, info 2, hint 1. -/
def severityOrder : Severity → Nat
  | .error => 4
  | .warning => 3
  | .info => 2
  | .hint => 1

/-- Collapse whitespace runs to single spaces (`.replace(/\s+/g, ' ')`);
`prevWs` records whether the previous character was whitespace. -/
def collapseWsGo (prevWs : Bool) : List Char → List Char
  | [] => []
  | c :: rest =>
    if isJsWs c then
      if prevWs then collapseWsGo true rest else ' ' :: collapseWsGo true rest
    else c :: collapseWsGo false rest

/-- `normalizeMessage`: lowercase, collapse whitespace, strip characters
outside `[a-z0-9 ]`, truncate to 50 characters. -/
def normalizeMessage (message : String) : String :=
  let low := message.data.map Char.toLower
  let collapsed := collapseWsGo false low
  let stripped := collapsed.filter
    (fun c => ('a' ≤ c && c ≤ 'z') || c.isDigit || c = ' ')
  String.mk (stripped.take 50)

/-- The deduplication key: `file + ":" + (line || 0) + ":" + normalizeMessage(message)`. -/
def findingKey (f : Finding) : String :=
  f.file ++ ":" ++ toString (match f.line with | some l => l | none => 0) ++ ":" ++
    normalizeMessage f.message

/-- `Map.get` on the insertion-ordered association list that models `seen`. -/
def seenLookup (seen : List (String × Finding)) (k : String) : Option Finding :=
  (seen.find? (fun e => e.1 = k)).map (fun e => e.2)

/-- `Map.set`: replaces in place on an existing key (keeping the original
insertion position), otherwise appends. -/
def seenSet (seen : List (String × Finding)) (k : String) (v : Finding) :
    List (String × Finding) :=
  if seen.any (fun e => e.1 = k) then
    seen.map (fun e => if e.1 = k then (k, v) else e)
  else seen ++ [(k, v)]

/-- The loop of `deduplicateFindings`:  a colliding finding replaces the
stored one only when its severity rank is strictly higher. -/
def dedupGo (seen : List (String × Finding)) : List Finding → List (String × Finding)
  | [] => seen
  | f :: rest =>
    match seenLookup seen (findingKey f) with
    | none => dedupGo (seenSet seen (findingKey f) f) rest
    | some existing =>
      if severityOrder f.severity > severityOrder existing.severity then
        dedupGo (seenSet seen (findingKey f) f) rest
      else dedupGo seen rest

/-- `AIAnalyzer.deduplicateFindings`: `Array.from(seen.values())`. -/
def deduplicateFindings (findings : List Finding) : List Finding :=
  (dedupGo [] findings).map (fun e => e.2)

/-! ## src/core/analyzer/ai/prompts.ts — AI response parsing

JSON values are modelled by the inductive `Json`.  JSON numbers are parsed
with the full JSON grammar but represented by their integer part only: no
claim depends on a non-integral numeric value. -/

/-- A parsed JSON value (object member lists keep textual order; duplicate
keys are resolved by `objGet`, which takes the last binding, as
`JSON.parse` does). -/
inductive Json where
  | null
  | bool (b : Bool)
  | num (n : Int)
  | str (s : String)
  | arr (elems : List Json)
  | obj (members : List (String × Json))

/-- The backtick character. -/
def btickChar : Char := Char.ofNat 96

/-- JSON whitespace (space, tab, line feed, carriage return). -/
def jsonSkipWs (l : List Char) : List Char :=
  l.dropWhile (fun c => c = ' ' || c = '\t' || c = '\n' || c = '\r')

/-- Hexadecimal digit value. -/
def hexVal (c : Char) : Option Nat :=
  if c.isDigit then some (c.toNat - 48)
  else if 'a' ≤ c && c ≤ 'f' then some (c.toNat - 87)
  else if 'A' ≤ c && c ≤ 'F' then some (c.toNat - 55)
  else none

/-- JSON string body (after the opening quote): escapes and the control
character restriction of `JSON.parse`. -/
def parseJsonString : Nat → List Char → List Char → Option (String × List Char)
  | 0, _, _ => none
  | _, [], _ => none
  | fuel + 1, c :: rest, acc =>
    if c = dquoteChar then some (String.mk acc.reverse, rest)
    else if c = '\\' then
      match rest with
      | e :: rest2 =>
        if e = dquoteChar then parseJsonString fuel rest2 (dquoteChar :: acc)
        else if e = '\\' then parseJsonString fuel rest2 ('\\' :: acc)
        else if e = '/' then parseJsonString fuel rest2 ('/' :: acc)
        else if e = 'b' then parseJsonString fuel rest2 (Char.ofNat 8 :: acc)
        else if e = 'f' then parseJsonString fuel rest2 (Char.ofNat 12 :: acc)
        else if e = 'n' then parseJsonString fuel rest2 ('\n' :: acc)
        else if e = 'r' then parseJsonString fuel rest2 ('\r' :: acc)
        else if e = 't' then parseJsonString fuel rest2 ('\t' :: acc)
        else if e = 'u' then
          match rest2 with
          | h1 :: h2 :: h3 :: h4 :: rest3 =>
            match hexVal h1, hexVal h2, hexVal h3, hexVal h4 with
            | some a, some b, some c2, some d =>
              parseJsonString fuel rest3
                (Char.ofNat (((a * 16 + b) * 16 + c2) * 16 + d) :: acc)
            | _, _, _, _ => none
          | _ => none
        else none
      | [] => none
    else if c.toNat < 32 then none
    else parseJsonString fuel rest (c :: acc)

/-- Digits to a natural number. -/
def digitsToNat (ds : List Char) : Nat :=
  ds.foldl (fun n c => n * 10 + (c.toNat - 48)) 0

/-- Optional exponent part of a JSON number. -/
def jsonExpTail (l : List Char) : Option (List Char) :=
  let l1 := match l with
    | '+' :: r => r
    | '-' :: r => r
    | _ => l
  if (l1.headD ' ').isDigit then some (l1.dropWhile Char.isDigit) else none

/-- Fraction and exponent of a JSON number (value kept as integer part). -/
def parseNumTail (ip : Nat) (neg : Bool) (l : List Char) : Option (Int × List Char) :=
  let l2 : Option (List Char) := match l with
    | '.' :: rest =>
      if (rest.headD ' ').isDigit then some (rest.dropWhile Char.isDigit) else none
    | _ => some l
  match l2 with
  | none => none
  | some l3 =>
    let l4 : Option (List Char) := match l3 with
      | 'e' :: rest => jsonExpTail rest
      | 'E' :: rest => jsonExpTail rest
      | _ => some l3
    match l4 with
    | none => none
    | some l5 => some ((if neg then -(ip : Int) else (ip : Int)), l5)

/-- A JSON number (strict grammar: no leading zeros, mandatory digits). -/
def parseJsonNumber (l : List Char) : Option (Int × List Char) :=
  let p : Bool × List Char := match l with
    | '-' :: rest => (true, rest)
    | _ => (false, l)
  match p.2 with
  | c :: rest =>
    if c = '0' then
      if (rest.headD ' ').isDigit then none else parseNumTail 0 p.1 rest
    else if c.isDigit then
      parseNumTail (digitsToNat ((c :: rest).takeWhile Char.isDigit)) p.1
        ((c :: rest).dropWhile Char.isDigit)
    else none
  | [] => none

mutual

/-- A JSON value (recursive descent; `fuel` bounds the call depth). -/
def parseJsonValue : Nat → List Char → Option (Json × List Char)
  | 0, _ => none
  | fuel + 1, l =>
    match jsonSkipWs l with
    | [] => none
    | c :: rest =>
      if c = dquoteChar then
        (parseJsonString (rest.length + 1) rest []).map (fun p => (Json.str p.1, p.2))
      else if c = lbraceChar then
        match jsonSkipWs rest with
        | c2 :: rest2 =>
          if c2 = rbraceChar then some (Json.obj [], rest2)
          else parseJsonMembers fuel (c2 :: rest2) []
        | [] => none
      else if c = '[' then
        match jsonSkipWs rest with
        | c2 :: rest2 =>
          if c2 = ']' then some (Json.arr [], rest2)
          else parseJsonElements fuel (c2 :: rest2) []
        | [] => none
      else if listStartsWith "null".data (c :: rest) then some (Json.null, rest.drop 3)
      else if listStartsWith "true".data (c :: rest) then some (Json.bool true, rest.drop 3)
      else if listStartsWith "false".data (c :: rest) then some (Json.bool false, rest.drop 4)
      else (parseJsonNumber (c :: rest)).map (fun p => (Json.num p.1, p.2))

/-- Members of a JSON object (expects the first non-whitespace character of a
member). -/
def parseJsonMembers : Nat → List Char → List (String × Json) →
    Option (Json × List Char)
  | 0, _, _ => none
  | fuel + 1, l, acc =>
    match l with
    | c :: rest =>
      if c = dquoteChar then
        match parseJsonString (rest.length + 1) rest [] with
        | some (key, r1) =>
          match jsonSkipWs r1 with
          | ':' :: r2 =>
            match parseJsonValue fuel r2 with
            | some (v, r3) =>
              match jsonSkipWs r3 with
              | ',' :: r4 => parseJsonMembers fuel (jsonSkipWs r4) (acc ++ [(key, v)])
              | c5 :: r5 =>
                if c5 = rbraceChar then some (Json.obj (acc ++ [(key, v)]), r5) else none
              | [] => none
            | none => none
          | _ => none
        | none => none
      else none
    | [] => none

/-- Elements of a JSON array (expects the first non-whitespace character of
an element). -/
def parseJsonElements : Nat → List Char → List Json → Option (Json × List Char)
  | 0, _, _ => none
  | fuel + 1, l, acc =>
    match parseJsonValue fuel l with
    | some (v, r1) =>
      match jsonSkipWs r1 with
      | ',' :: r2 => parseJsonElements fuel r2 (acc ++ [v])
      | ']' :: r2 => some (Json.arr (acc ++ [v]), r2)
      | _ => none
    | none => none

end

/-- `JSON.parse`: a single value with only whitespace around it. -/
def jsonParse (s : String) : Option Json :=
  match parseJsonValue (s.length + 2) s.data with
  | some (j, rest) => if jsonSkipWs rest = [] then some j else none
  | none => none

/-- Property lookup on an object member list; the last binding wins, as with
`JSON.parse` duplicate keys. -/
def objGet (members : List (String × Json)) (k : String) : Option Json :=
  (members.reverse.find? (fun m => m.1 = k)).map (fun m => m.2)

/-- `x[k]` where `x` is any parsed value: objects look up the key, every
other non-null value yields `undefined`. -/
def jGet (f : Json) (k : String) : Option Json :=
  match f with
  | .obj ms => objGet ms k
  | _ => none

/-- The rest after the first triple backtick. -/
def afterFirstFence : List Char → Option (List Char)
  | [] => none
  | [_] => none
  | [_, _] => none
  | c1 :: c2 :: c3 :: rest =>
    if c1 = btickChar && c2 = btickChar && c3 = btickChar then some rest
    else afterFirstFence (c2 :: c3 :: rest)

/-- The content before the next triple backtick (`none` when unclosed). -/
def beforeFence (acc : List Char) : List Char → Option (List Char)
  | [] => none
  | [_] => none
  | [_, _] => none
  | c1 :: c2 :: c3 :: rest =>
    if c1 = btickChar && c2 = btickChar && c3 = btickChar then some acc.reverse
    else beforeFence (c1 :: acc) (c2 :: c3 :: rest)

/-- The code-fence regex of `parseAIResponse`:
`/```(?:json)?\s*([\s\S]*?)```/` — leftmost opening fence, optional `json`
tag, lazily up to the next closing fence.  The `\s*` is omitted because the
caller trims the captured group. -/
def fenceMatch (l : List Char) : Option (List Char) :=
  match afterFirstFence l with
  | some rest =>
    let rest2 := match stripLit "json" rest with
      | some r => r
      | none => rest
    beforeFence [] rest2
  | none => none

/-- Index of the first occurrence of `c`. -/
def idxOfFirst (c : Char) : List Char → Option Nat
  | [] => none
  | x :: rest =>
    if x = c then some 0 else (idxOfFirst c rest).map (fun i => i + 1)

/-- The object-extraction regex `/\{[\s\S]*\}/`: from the first `{` to the
last `}` (greedy), when the latter comes after the former. -/
def objectMatch (l : List Char) : Option (List Char) :=
  match idxOfFirst lbraceChar l, idxOfFirst rbraceChar l.reverse with
  | some i, some jr =>
    let j := l.length - 1 - jr
    if i < j then some ((l.drop i).take (j + 1 - i)) else none
  | _, _ => none

/-- The candidate string handed to `JSON.parse`: trim, unwrap a code fence,
extract the first-to-last-brace object. -/
def extractJsonCandidate (response : String) : String :=
  let jsonStr := jsTrim response
  let jsonStr1 := match fenceMatch jsonStr.data with
    | some captured => jsTrim (String.mk captured)
    | none => jsonStr
  match objectMatch jsonStr1.data with
  | some m => String.mk m
  | none => jsonStr1

/-- `normalizeSeverity`; the argument is `Option` because the source calls
`severity?.toLowerCase()` (null and undefined both reach the final
default). -/
def normalizeSeverity (severity : Option String) : String :=
  match severity with
  | none => "info"
  | some s =>
    let normalized := strToLower s
    if normalized = "error" ∨ normalized = "warning" ∨ normalized = "info" ∨
        normalized = "hint" then normalized
    else if normalized = "critical" ∨ normalized = "high" then "error"
    else if normalized = "medium" then "warning"
    else if normalized = "low" then "info"
    else "info"

/-- One normalized finding as produced by `parseAIResponse`: the
`ruleId`/`file`/`message` fields keep whatever (truthy) JSON value was
present, else the fixed placeholder string. -/
structure NormalizedFinding where
  (ruleId : Json)
  (severity : String)
  (file : Json)
  (line : Option Int)
  (message : Json)
  (suggestion : Option Json)

/-- JavaScript falsiness of a parsed JSON value. -/
def jsFalsyJson (j : Json) : Bool :=
  match j with
  | .null => true
  | .bool b => !b
  | .num n => n = 0
  | .str s => s = ""
  | _ => false

/-- `v || dflt` on JSON values. -/
def jsOrJson (v : Option Json) (dflt : Json) : Json :=
  match v with
  | none => dflt
  | some x => if jsFalsyJson x then dflt else x

/-- The normalization record for one finding (severity precomputed). -/
def mkNormalized (f : Json) (sev : String) : NormalizedFinding :=
  { ruleId := jsOrJson (jGet f "ruleId") (.str "ai/unknown")
    severity := sev
    file := jsOrJson (jGet f "file") (.str "unknown")
    line := match jGet f "line" with | some (.num n) => some n | _ => none
    message := jsOrJson (jGet f "message") (.str "No description provided")
    suggestion := jGet f "suggestion" }

/-- Normalize one element of the findings array.  `none` models a TypeError
(property access on `null`, or `.toLowerCase()` on a non-string severity),
which the source catches by falling back for the whole response. -/
def normalizeFindingJson (f : Json) : Option NormalizedFinding :=
  match f with
  | .null => none
  | _ =>
    match jGet f "severity" with
    | some (.str s) => some (mkNormalized f (normalizeSeverity (some s)))
    | some .null => some (mkNormalized f (normalizeSeverity none))
    | some _ => none
    | none => some (mkNormalized f (normalizeSeverity none))

/-- The result of `parseAIResponse`.  On the success path `summary` is the
raw `summary` member (possibly absent); the fallback paths store strings. -/
structure AIReviewResponseModel where
  (findings : List NormalizedFinding)
  (summary : Option Json)

/-- The catch-block fallback: empty findings plus the diagnostic summary
with the first 200 characters of the raw response. -/
def parseFallback (response : String) : AIReviewResponseModel :=
  { findings := [],
    summary := some (.str ("Failed to parse AI response: " ++ response.take 200)) }

/-- `parseAIResponse`: fence stripping, object extraction, `JSON.parse`,
structure validation, per-finding normalization; every failure mode
degrades to a fallback record instead of raising. -/
def parseAIResponse (response : String) : AIReviewResponseModel :=
  match jsonParse (extractJsonCandidate response) with
  | none => parseFallback response
  | some j =>
    match j with
    | Json.null => parseFallback response
    | _ =>
      match jGet j "findings" with
      | some (Json.arr fs) =>
        match fs.mapM normalizeFindingJson with
        | some nfs => { findings := nfs, summary := jGet j "summary" }
        | none => parseFallback response
      | _ => { findings := [], summary := some (.str "Failed to parse AI response") }

/-! ## src/cli/index.ts — DependencyAnalyzer -/

/-- Kernel-reducible `startsWith`. -/
def strStartsWith (s pat : String) : Bool :=
  listStartsWith pat.data s.data

/-- Drop the first `n` characters. -/
def strDrop (s : String) (n : Nat) : String :=
  String.mk (s.data.drop n)

/-- `[jt]sx?$`: the remainder is exactly `js`, `ts`, `jsx` or `tsx`. -/
def jtsxSuffix : List Char → Bool
  | [a, 's'] => a = 'j' || a = 't'
  | [a, 's', 'x'] => a = 'j' || a = 't'
  | _ => false

/-- Scan for `pat` at every position, continuing with `tail` on the rest. -/
def containsThen (pat : String) (tail : List Char → Bool) : List Char → Bool
  | [] => false
  | c :: rest =>
    (match stripLit pat (c :: rest) with
     | some r => tail r
     | none => false) || containsThen pat tail rest

/-- `.*\.[jt]sx?$` (the dot-star does not cross a newline). -/
def dotJtsxEnd : List Char → Bool
  | [] => false
  | c :: rest =>
    if c = '\n' then false
    else (c = '.' && jtsxSuffix rest) || dotJtsxEnd rest

/-- `.*\/page\.[jt]sx?$` (for the `app\/.*\/page\.[jt]sx?$` pattern). -/
def slashPageEnd : List Char → Bool
  | [] => false
  | c :: rest =>
    if c = '\n' then false
    else
      (match stripLit "/page." (c :: rest) with
       | some r => jtsxSuffix r
       | none => false) || slashPageEnd rest

/-- `.*\.json$` (no newline crossing). -/
def dotJsonEnd : List Char → Bool
  | [] => false
  | c :: rest =>
    if c = '\n' then false
    else (c = '.' && rest = "json".data) || dotJsonEnd rest

/-- `.*\.py$` (no newline crossing). -/
def dotPyEnd : List Char → Bool
  | [] => false
  | c :: rest =>
    if c = '\n' then false
    else (c = '.' && rest = "py".data) || dotPyEnd rest

/-- `ENTRY_POINT_PATTERNS.some(p => p.test(path))`. -/
def entryPointMatch (p : String) : Bool :=
  let l := p.data
  (match stripLit "index." l with | some r => jtsxSuffix r | none => false) ||
  (match stripLit "main." l with | some r => jtsxSuffix r | none => false) ||
  (match stripLit "app." l with | some r => jtsxSuffix r | none => false) ||
  (match stripLit "server." l with | some r => jtsxSuffix r | none => false) ||
  containsThen "pages/" dotJtsxEnd l ||
  containsThen "app/" slashPageEnd l ||
  containsThen "routes/" dotJtsxEnd l ||
  (match stripLit "src/index." l with | some r => jtsxSuffix r | none => false) ||
  (match stripLit "src/main." l with | some r => jtsxSuffix r | none => false) ||
  (match stripLit "src/app." l with | some r => jtsxSuffix r | none => false)

/-- `CONFIG_PATTERNS.some(p => p.test(path))`. -/
def configMatch (p : String) : Bool :=
  strEndsWith p ".config.ts" || strEndsWith p ".config.js" ||
  strEndsWith p ".config.mjs" ||
  (match stripLit "tsconfig" p.data with | some r => dotJsonEnd r | none => false) ||
  p = "package.json" || p = ".env.example" ||
  strStartsWith p "next.config." || strStartsWith p "vite.config." ||
  strStartsWith p "webpack.config." || strStartsWith p "tailwind.config." ||
  strStartsWith p "postcss.config." || strStartsWith p "jest.config." ||
  strStartsWith p "vitest.config." || strStartsWith p "eslint.config." ||
  strStartsWith p ".eslintrc" || strStartsWith p ".prettierrc"

/-- `TEST_PATTERNS.some(p => p.test(path))`. -/
def testMatch (p : String) : Bool :=
  strEndsWith p ".test.ts" || strEndsWith p ".test.tsx" ||
  strEndsWith p ".test.js" || strEndsWith p ".test.jsx" ||
  strEndsWith p ".spec.ts" || strEndsWith p ".spec.tsx" ||
  strEndsWith p ".spec.js" || strEndsWith p ".spec.jsx" ||
  strContains p "__tests__/" ||
  strEndsWith p ".test.py" ||
  containsThen "test_" dotPyEnd p.data

/-- `API_PATTERNS.some(p => p.test(path))`. -/
def apiMatch (p : String) : Bool :=
  strContains p "pages/api/" || strContains p "app/api/" ||
  strContains p "routes/" ||
  strContains p "controller/" || strContains p "controllers/" ||
  strContains p "endpoint/" || strContains p "endpoints/" ||
  strContains p "/api/"

/-- The ten SECURITY_PATTERNS of the DependencyAnalyzer (case-insensitive
literals). -/
def depSecurityPathMatch (p : String) : Bool :=
  ["auth", "login", "session", "token", "password", "secret", "credential",
   "middleware", "permission", "role"].any (fun pat => strContainsCI p pat)

/-- `categorizeFile`: strict precedence test → config → api → entry →
component → util → other. -/
def categorizeFile (relativePath : String) : FileCategory :=
  if testMatch relativePath then .test
  else if configMatch relativePath then .config
  else if apiMatch relativePath then .api
  else if entryPointMatch relativePath then .entry
  else if strContains relativePath "component/" || strContains relativePath "components/" then .component
  else if strContains relativePath "util/" || strContains relativePath "utils/" ||
      strContains relativePath "helper/" || strContains relativePath "helpers/" ||
      strContains relativePath "lib/" ||
      strContains relativePath "service/" || strContains relativePath "services/" then .util
  else .other

/-- `['"]([^'"]+)['"]`: either quote opens, at least one non-quote character,
either quote closes. -/
def quotedSpec (l : List Char) : Option (String × List Char) :=
  match l with
  | q :: rest =>
    if q = squoteChar || q = dquoteChar then
      let cap := rest.takeWhile (fun c => !(c = squoteChar) && !(c = dquoteChar))
      if cap = [] then none
      else
        match rest.drop cap.length with
        | q2 :: rem => if q2 = squoteChar || q2 = dquoteChar then some (String.mk cap, rem) else none
        | [] => none
    else none
  | [] => none

/-- `\s*from\s*['"]([^'"]+)['"]`. -/
def fromClause (l : List Char) : Option (String × List Char) :=
  match stripLit "from" (l.dropWhile isJsWs) with
  | some r => quotedSpec (r.dropWhile isJsWs)
  | none => none

/-- All remainders after consuming at least one leading `\w` character,
longest consumption first (regex backtracking priority for `\w+`). -/
def wordSplits (l : List Char) : List (List Char) :=
  let k := (l.takeWhile isWordChar).length
  (List.range k).map (fun j => l.drop (k - j))

/-- Remainders after one item of the import-clause group:
`\{[^}]*\}` or `\*\s+as\s+\w+` or `\w+`. -/
def importItemRems (l : List Char) : List (List Char) :=
  match l with
  | c :: rest =>
    if c = lbraceChar then
      let inner := rest.takeWhile (fun ch => !(ch = rbraceChar))
      match rest.drop inner.length with
      | c2 :: rem => if c2 = rbraceChar then [rem] else []
      | [] => []
    else if c = '*' then
      match skipWs1 rest with
      | some r1 =>
        match stripLit "as" r1 with
        | some r2 =>
          match skipWs1 r2 with
          | some r3 => if hasWordCharHead r3 then wordSplits r3 else []
          | none => []
        | none => []
      | none => []
    else if isWordChar c then wordSplits (c :: rest)
    else []
  | [] => []

/-- The deterministic `\s*,?\s*` separator after an import item. -/
def sepConsume (l : List Char) : List Char :=
  let l1 := l.dropWhile isJsWs
  match l1 with
  | ',' :: r => r.dropWhile isJsWs
  | _ => l1

/-- Try a continuation on each remainder in priority order. -/
def tryRems (f : List Char → Option (String × List Char)) :
    List (List Char) → Option (String × List Char)
  | [] => none
  | r :: rs =>
    match f r with
    | some x => some x
    | none => tryRems f rs

/-- The starred group `(?:item\s*,?\s*)*` followed by the from-clause; the
greedy star tries one more item first and falls back to the from-clause
(regex backtracking order). -/
def starGroupGo : Nat → List Char → Option (String × List Char)
  | 0, l => fromClause l
  | fuel + 1, l =>
    match tryRems (fun rem => starGroupGo fuel (sepConsume rem)) (importItemRems l) with
    | some x => some x
    | none => fromClause l

/-- One match of the static-import regex
`/import\s+(?:(?:\{[^}]*\}|\*\s+as\s+\w+|\w+)\s*,?\s*)*\s*from\s*['"]([^'"]+)['"]/`
anchored at the head of the list; returns the capture and the remainder
after the whole match. -/
def matchStaticImportAt (l : List Char) : Option (String × List Char) :=
  match stripLit "import" l with
  | some r =>
    match skipWs1 r with
    | some r2 => starGroupGo (r2.length + 1) r2
    | none => none
  | none => none

/-- One match of `/import\s*\(\s*['"]([^'"]+)['"]\s*\)/` at the head. -/
def matchDynamicImportAt (l : List Char) : Option (String × List Char) :=
  match stripLit "import" l with
  | some r =>
    match r.dropWhile isJsWs with
    | '(' :: r2 =>
      match quotedSpec (r2.dropWhile isJsWs) with
      | some (cap, rem) =>
        match rem.dropWhile isJsWs with
        | ')' :: rem2 => some (cap, rem2)
        | _ => none
      | none => none
    | _ => none
  | none => none

/-- One match of `/require\s*\(\s*['"]([^'"]+)['"]\s*\)/` at the head. -/
def matchRequireAt (l : List Char) : Option (String × List Char) :=
  match stripLit "require" l with
  | some r =>
    match r.dropWhile isJsWs with
    | '(' :: r2 =>
      match quotedSpec (r2.dropWhile isJsWs) with
      | some (cap, rem) =>
        match rem.dropWhile isJsWs with
        | ')' :: rem2 => some (cap, rem2)
        | _ => none
      | none => none
    | _ => none
  | none => none

/-- `RegExp.exec` loop with the `g` flag: try the matcher at every position,
jumping past each match. -/
def scanCaptures (matchAt : List Char → Option (String × List Char)) :
    Nat → List Char → List String
  | 0, _ => []
  | _, [] => []
  | fuel + 1, c :: rest =>
    match matchAt (c :: rest) with
    | some (cap, rem) => cap :: scanCaptures matchAt fuel rem
    | none => scanCaptures matchAt fuel rest

/-- Python `from\s+(\S+)\s+import` branch. -/
def pyFromAt (l : List Char) : Option (String × List Char) :=
  match stripLit "from" l with
  | some r =>
    match skipWs1 r with
    | some r1 =>
      let spec := r1.takeWhile (fun c => !isJsWs c)
      if spec = [] then none
      else
        match skipWs1 (r1.drop spec.length) with
        | some r2 =>
          match stripLit "import" r2 with
          | some rem => some (String.mk spec, rem)
          | none => none
        | none => none
    | none => none
  | none => none

/-- Python `import\s+(\S+)` branch. -/
def pyImportAt (l : List Char) : Option (String × List Char) :=
  match stripLit "import" l with
  | some r =>
    match skipWs1 r with
    | some r1 =>
      let spec := r1.takeWhile (fun c => !isJsWs c)
      if spec = [] then none else some (String.mk spec, r1.drop spec.length)
    | none => none
  | none => none

/-- The alternation of `/^(?:from\s+(\S+)\s+import|import\s+(\S+))/`. -/
def pyMatchAt (l : List Char) : Option (String × List Char) :=
  match pyFromAt l with
  | some x => some x
  | none => pyImportAt l

/-- `exec` loop for a `gm` regex anchored with `^`: the matcher is tried
only at the start of the text or right after a line feed. -/
def lineStartScan (matchAt : List Char → Option (String × List Char)) :
    Nat → Bool → List Char → List String
  | 0, _, _ => []
  | _, _, [] => []
  | fuel + 1, atLineStart, c :: rest =>
    if atLineStart then
      match matchAt (c :: rest) with
      | some (cap, rem) => cap :: lineStartScan matchAt fuel false rem
      | none => lineStartScan matchAt fuel (c = '\n') rest
    else lineStartScan matchAt fuel (c = '\n') rest

/-- `extractImports`: language-keyed regex scans over the file text. -/
def extractImports (content : String) (extension : String) : List String :=
  if [".ts", ".tsx", ".js", ".jsx", ".mjs"].contains extension then
    scanCaptures matchStaticImportAt (content.length + 1) content.data ++
    scanCaptures matchDynamicImportAt (content.length + 1) content.data ++
    scanCaptures matchRequireAt (content.length + 1) content.data
  else if extension = ".py" then
    lineStartScan pyMatchAt (content.length + 1) true content.data
  else []

/-- First keyword of the named-export regex that strips (the keywords are
pairwise prefix-free, so the alternation is deterministic). -/
def exportKwStrip (l : List Char) : Option (List Char) :=
  match stripLit "const" l with
  | some r => some r
  | none =>
  match stripLit "let" l with
  | some r => some r
  | none =>
  match stripLit "var" l with
  | some r => some r
  | none =>
  match stripLit "function" l with
  | some r => some r
  | none =>
  match stripLit "class" l with
  | some r => some r
  | none =>
  match stripLit "interface" l with
  | some r => some r
  | none =>
  match stripLit "type" l with
  | some r => some r
  | none =>
  match stripLit "enum" l with
  | some r => some r
  | none => none

/-- One match of
`/export\s+(?:const|let|var|function|class|interface|type|enum)\s+(\w+)/`. -/
def matchNamedExportAt (l : List Char) : Option (String × List Char) :=
  match stripLit "export" l with
  | some r =>
    match skipWs1 r with
    | some r1 =>
      match exportKwStrip r1 with
      | some r2 =>
        match skipWs1 r2 with
        | some r3 =>
          let w := r3.takeWhile isWordChar
          if w = [] then none else some (String.mk w, r3.drop w.length)
        | none => none
      | none => none
    | none => none
  | none => none

/-- `/export\s+default/.test(content)`. -/
def hasExportDefault (l : List Char) : Bool :=
  containsThen "export"
    (fun r =>
      match skipWs1 r with
      | some r2 => listStartsWith "default".data r2
      | none => false) l

/-- One match of `/export\s+\{([^}]+)\}/`. -/
def matchReExportAt (l : List Char) : Option (String × List Char) :=
  match stripLit "export" l with
  | some r =>
    match skipWs1 r with
    | some r1 =>
      match r1 with
      | c :: r2 =>
        if c = lbraceChar then
          let inner := r2.takeWhile (fun ch => !(ch = rbraceChar))
          if inner = [] then none
          else
            match r2.drop inner.length with
            | c2 :: rem => if c2 = rbraceChar then some (String.mk inner, rem) else none
            | [] => none
        else none
      | [] => none
    | none => none
  | none => none

/-- JavaScript `s.split(',')`. -/
def splitCommaGo (cur : List Char) : List Char → List String
  | [] => [String.mk cur.reverse]
  | c :: rest =>
    if c = ',' then String.mk cur.reverse :: splitCommaGo [] rest
    else splitCommaGo (c :: cur) rest

/-- `n.split(/\s+as\s+/)`: leftmost separator scan (the separator is a
whitespace run, `as`, and another whitespace run).  `fuel` bounds the scan
(every step consumes at least one character). -/
def splitAsWsGo : Nat → List Char → List Char → List (List Char)
  | _, acc, [] => [acc.reverse]
  | 0, acc, l => [acc.reverse ++ l]
  | fuel + 1, acc, c :: rest =>
    if isJsWs c then
      match stripLit "as" ((c :: rest).dropWhile isJsWs) with
      | some r2 =>
        match skipWs1 r2 with
        | some r3 => acc.reverse :: splitAsWsGo fuel [] r3
        | none => splitAsWsGo fuel (c :: acc) rest
      | none => splitAsWsGo fuel (c :: acc) rest
    else splitAsWsGo fuel (c :: acc) rest

/-- `n.trim().split(/\s+as\s+/).pop()!.trim()` for one re-exported name. -/
def reExportName (n : String) : String :=
  match (splitAsWsGo ((jsTrim n).length + 1) [] (jsTrim n).data).getLast? with
  | some last => jsTrim (String.mk last)
  | none => jsTrim n

/-- Python `/^(?:def|class|async\s+def)\s+(\w+)/` at the head. -/
def pyDefAt (l : List Char) : Option (String × List Char) :=
  let kw : Option (List Char) :=
    match stripLit "def" l with
    | some r => some r
    | none =>
    match stripLit "class" l with
    | some r => some r
    | none =>
    match stripLit "async" l with
    | some r =>
      match skipWs1 r with
      | some r1 => stripLit "def" r1
      | none => none
    | none => none
  match kw with
  | some r2 =>
    match skipWs1 r2 with
    | some r3 =>
      let w := r3.takeWhile isWordChar
      if w = [] then none else some (String.mk w, r3.drop w.length)
    | none => none
  | none => none

/-- `extractExports`: named exports, a `default` marker, re-exported names
(alias target), or Python top-level definitions not starting with `_`. -/
def extractExports (content : String) (extension : String) : List String :=
  if [".ts", ".tsx", ".js", ".jsx", ".mjs"].contains extension then
    scanCaptures matchNamedExportAt (content.length + 1) content.data ++
    (if hasExportDefault content.data then ["default"] else []) ++
    ((scanCaptures matchReExportAt (content.length + 1) content.data).flatMap
      (fun inner => (splitCommaGo [] inner.data).map reExportName))
  else if extension = ".py" then
    (lineStartScan pyDefAt (content.length + 1) true content.data).filter
      (fun name => !strStartsWith name "_")
  else []

/-- Index of the last occurrence of `c`. -/
def idxOfLast (c : Char) (l : List Char) : Option Nat :=
  (idxOfFirst c l.reverse).map (fun j => l.length - 1 - j)

/-- `path.dirname` (POSIX, for the normal relative paths the analyzer sees). -/
def pathDirname (p : String) : String :=
  match idxOfLast '/' p.data with
  | none => "."
  | some 0 => "/"
  | some i => String.mk (p.data.take i)

/-- JavaScript-style split on `/`. -/
def splitSlashGo (cur : List Char) : List Char → List String
  | [] => [String.mk cur.reverse]
  | c :: rest =>
    if c = '/' then String.mk cur.reverse :: splitSlashGo [] rest
    else splitSlashGo (c :: cur) rest

/-- Join path segments with `/`. -/
def joinSlash : List String → String
  | [] => ""
  | [s] => s
  | s :: rest => s ++ "/" ++ joinSlash rest

/-- Segment normalization of `path.normalize`/`path.join`: drop empty and
`.` segments, resolve `..` against the stack (keeping leading `..`s). -/
def normalizeSegs (acc : List String) : List String → List String
  | [] => acc.reverse
  | seg :: rest =>
    if seg = "" || seg = "." then normalizeSegs acc rest
    else if seg = ".." then
      match acc with
      | t :: ts => if t = ".." then normalizeSegs (".." :: t :: ts) rest else normalizeSegs ts rest
      | [] => normalizeSegs [".."] rest
    else normalizeSegs (seg :: acc) rest

/-- `path.normalize(path.join(a, b))` for the relative paths in play. -/
def pathJoinNormalize (a b : String) : String :=
  let out := normalizeSegs [] (splitSlashGo [] a.data ++ splitSlashGo [] b.data)
  if out = [] then "." else joinSlash out

/-- `.replace(/\\/g, '/')`. -/
def backslashToSlash (s : String) : String :=
  String.mk (s.data.map (fun c => if c = '\\' then '/' else c))

/-- Is `p` a key of the graph map (`graph.files.has(p)`)? -/
def graphHas (graph : DependencyGraph) (p : String) : Bool :=
  graph.files.any (fun e => e.1 = p)

/-- The extension/index-suffix list tried by `resolveImportPath`. -/
def resolveExtensions : List String :=
  [".ts", ".tsx", ".js", ".jsx", ".mjs", "/index.ts", "/index.tsx", "/index.js"]

/-- `resolveImportPath`: bare specifiers are external; relative/absolute
specifiers are normalized against the importing directory and tried as exact
match, with each suffix, then with a leading `./` stripped. -/
def resolveImportPath (importPath fromFile : String) (graph : DependencyGraph) :
    Option String :=
  if !strStartsWith importPath "." && !strStartsWith importPath "/" then none
  else
    let fromDir := pathDirname fromFile
    let resolved := backslashToSlash (pathJoinNormalize fromDir importPath)
    if graphHas graph resolved then some resolved
    else
      match (resolveExtensions.map (fun ext => resolved ++ ext)).find?
          (fun cand => graphHas graph cand) with
      | some withExt => some withExt
      | none =>
        let resolved2 := if strStartsWith resolved "./" then strDrop resolved 2 else resolved
        if graphHas graph resolved2 then some resolved2 else none

/-- `Map.set` on the graph map: replace in place or append. -/
def setAssoc (m : List (String × FileNode)) (k : String) (v : FileNode) :
    List (String × FileNode) :=
  if m.any (fun e => e.1 = k) then
    m.map (fun e => if e.1 = k then (k, v) else e)
  else m ++ [(k, v)]

/-- The node built for one file in the first pass of `buildGraph`
(imports/exports are empty when the content load fails or yields falsy
text). -/
def buildGraphNode (file : FileInfo) : FileNode :=
  FileNode.mk file.relativePath
    (match loadContent file with
     | some c => if c = "" then [] else extractImports c file.extension
     | none => [])
    []
    (match loadContent file with
     | some c => if c = "" then [] else extractExports c file.extension
     | none => [])
    (categorizeFile file.relativePath) file.size none

/-- One iteration of the first pass of `buildGraph`. -/
def buildGraphFirstPassStep (g : DependencyGraph) (file : FileInfo) : DependencyGraph :=
  let category := categorizeFile file.relativePath
  { g with
    files := setAssoc g.files file.relativePath (buildGraphNode file)
    entryPoints := g.entryPoints ++ (if category = .entry then [file.relativePath] else [])
    configFiles := g.configFiles ++ (if category = .config then [file.relativePath] else [])
    testFiles := g.testFiles ++ (if category = .test then [file.relativePath] else [])
    apiFiles := g.apiFiles ++ (if category = .api then [file.relativePath] else []) }

/-- First pass of `buildGraph`: create every node and the category lists. -/
def buildGraphFirstPass (files : List FileInfo) : DependencyGraph :=
  files.foldl buildGraphFirstPassStep (DependencyGraph.mk [] [] [] [] [])

/-- Push `importer` onto the `importedBy` of the node at `target`, unless
already present (duplicate suppression). -/
def updateImportedBy (files : List (String × FileNode)) (target importer : String) :
    List (String × FileNode) :=
  files.map (fun e =>
    if e.1 = target then
      (e.1,
       if e.2.importedBy.contains importer then e.2
       else { e.2 with importedBy := e.2.importedBy ++ [importer] })
    else e)

/-- One import specifier of the second pass of `buildGraph`: resolve it
against the graph and record the reverse edge when it lands on a node. -/
def secondPassImportStep (g : DependencyGraph) (importer : String)
    (files : List (String × FileNode)) (importPath : String) :
    List (String × FileNode) :=
  match resolveImportPath importPath importer g with
  | some resolvedPath =>
    if graphHas g resolvedPath then updateImportedBy files resolvedPath importer
    else files
  | none => files

/-- Second pass of `buildGraph`: for every node and every import specifier,
resolve it and record the reverse edge. -/
def buildGraphSecondPass (g : DependencyGraph) : List (String × FileNode) :=
  g.files.foldl (fun files entry =>
    entry.2.imports.foldl (secondPassImportStep g entry.1) files) g.files

/-- `DependencyAnalyzer.buildGraph`. -/
def buildGraph (files : List FileInfo) : DependencyGraph :=
  let g := buildGraphFirstPass files
  { g with files := buildGraphSecondPass g }

/-- The per-node score of `calculatePriorities` (before storing). -/
def priorityScore (filePath : String) (node : FileNode) : Int :=
  let score : Int :=
    (if node.category = .entry then 100 else 0) +
    (if node.category = .config then 80 else 0) +
    (if node.category = .api then 70 else 0) +
    (node.importedBy.length : Int) * 10 +
    min ((node.imports.length : Int) * 2) 20 +
    min ((node.exports.length : Int) * 3) 30 +
    (if depSecurityPathMatch filePath then 50 else 0) -
    (if node.size > 50000 then 20 else 0) -
    (if node.size > 100000 then 30 else 0) -
    (if node.category = .test then 40 else 0)
  max 0 score

/-- `DependencyAnalyzer.calculatePriorities`: store the clamped score on
every node. -/
def calculatePriorities (graph : DependencyGraph) : DependencyGraph :=
  { graph with
    files := graph.files.map (fun e => (e.1, { e.2 with priority := some (priorityScore e.1 e.2) })) }

/-! ## Specification-side definitions

These definitions formalize the language of the specification and the
claims; they are compared against the source-derived definitions above. -/

/-- Spec side (C1): the maximal severity rank in a finding group. -/
def maxSeverityRank : List Finding → Nat
  | [] => 0
  | f :: rest => max (severityOrder f.severity) (maxSeverityRank rest)

/-- Spec side (C1): the earliest finding (input order) among those of
maximal severity rank in a group. -/
def earliestMaxBySeverity (g : List Finding) : Option Finding :=
  (g.filter (fun f => severityOrder f.severity = maxSeverityRank g)).head?

/-- Keep the later finding only when its severity rank is strictly higher
(the collision rule of the deduplicator). -/
def pickHigher (a b : Finding) : Finding :=
  if severityOrder b.severity > severityOrder a.severity then b else a

/-- The survivor for key `k` accumulated left to right over a finding list,
starting from `acc` (proof-side reformulation of the deduplication loop). -/
def dedupMergeOpt (k : String) (acc : Option Finding) (fs : List Finding) :
    Option Finding :=
  fs.foldl (fun acc f =>
    if findingKey f = k then
      match acc with
      | none => some f
      | some a => some (pickHigher a f)
    else acc) acc

/-- Spec side (C4): `buildContextFile` as the claim words it — identical to
the source except that the full-text fallback fires when slices consume
AT LEAST 80% of the full-text tokens (`5 * sliceTokens ≥ 4 * tokens`). -/
def specBuildContextFile (file : FileInfo) (reason : String) (remainingBudget : Int)
    (findings : List Finding := []) : Option ContextFile :=
  match loadContent file with
  | none => none
  | some content =>
    if content = "" then none
    else
      let tokens := estimateTokens content
      if file.size < SLICE_THRESHOLD ∧ (tokens : Int) < remainingBudget then
        some { path := file.relativePath, content := some content,
               reason := reason, priority := 50 }
      else
        let slices := extractSlices content file.relativePath
          { staticFindings := findings, includeExports := true,
            includeSecurity := true, includeDefinitions := true,
            maxTotalSize := min (remainingBudget * 4) 20000 }
        let reconstructed := reconstructSliceContent content slices
        let sliceContent := joinLines (reconstructed.map (fun s => s.content))
        let sliceTokens := estimateTokens sliceContent
        if (sliceTokens : Int) > remainingBudget then none
        else if 5 * sliceTokens ≥ 4 * tokens ∧ (tokens : Int) < remainingBudget then
          some { path := file.relativePath, content := some content,
                 reason := reason, priority := 50 }
        else
          some { path := file.relativePath, slices := some reconstructed,
                 reason := reason ++ " (sliced)", priority := 50 }

/-- A file load that succeeds with truthy content (what every inclusion
route requires). -/
def loadOk (file : FileInfo) : Prop :=
  ∃ c, loadContent file = some c ∧ c ≠ ""

/-! ## Concrete inputs used by witnesses and counterexamples -/

/-- A small file text with one exported function block (lines 1–3) and a
trailing plain line; 37 characters, so 10 full-text tokens, and its single
extracted slice (lines 1–3, 32 characters) costs 8 slice tokens — exactly
80% of the full-text tokens. -/
def exportSnippetContent : String :=
  "export function f() \x7b\nreturn 1\n\x7d\naaaa"

/-- C4 counterexample input: the slice path is taken because the recorded
byte size is at least 50 KB (a byte size far above the character count
occurs for multibyte files); slice tokens are exactly 80% of full tokens. -/
def c4InputFile : FileInfo :=
  FileInfo.mk "f.ts" "f.ts" ".ts" 60000 (some exportSnippetContent) none

/-- C3 witness input: same text with its consistent size; with remaining
budget 9 the slice path is taken. -/
def c3InputFile : FileInfo :=
  FileInfo.mk "f.ts" "f.ts" ".ts" 37 (some exportSnippetContent) none

/-- C5 counterexample: 990 characters → 248 tokens per file. -/
def c5Content : String := String.mk (List.replicate 990 'a')

/-- C5 counterexample: the i-th scanned file. -/
def c5File (i : Nat) : FileInfo :=
  FileInfo.mk ("f" ++ toString i) ("f" ++ toString i) ".txt" 990 (some c5Content) none

/-- C5 counterexample: 146 preloaded files. -/
def c5Ctx : AnalysisContext :=
  AnalysisContext.mk ((List.range 146).map c5File) []

/-- C5 counterexample: the graph node for the i-th file. -/
def c5Node (i : Nat) : FileNode :=
  FileNode.mk ("f" ++ toString i) [] [] [] FileCategory.other 990 (some 0)

/-- C5 counterexample graph: 146 plain nodes, no findings, no connectivity. -/
def c5Graph : DependencyGraph :=
  DependencyGraph.mk ((List.range 146).map (fun i => ("f" ++ toString i, c5Node i))) [] [] [] []

/-- C9 counterexample options: one static finding for the file, zero cap. -/
def c9Options : SliceOptions :=
  { staticFindings := [Finding.mk "static/x" Severity.info "f" (some 1) "m" none],
    maxTotalSize := 0 }

/-- C10 witness: a file with no preloaded content whose disk read fails. -/
def c10FailFile : FileInfo := FileInfo.mk "/r/p.ts" "p.ts" ".ts" 10 none none

/-- C10 witness context: just the failing file. -/
def c10Ctx : AnalysisContext := AnalysisContext.mk [c10FailFile] []

/-- C10 witness graph: the failing file is an entry point, so the
architecture pass would try to include it. -/
def c10Graph : DependencyGraph :=
  DependencyGraph.mk [("p.ts", FileNode.mk "p.ts" [] [] [] FileCategory.entry 10 none)]
    ["p.ts"] [] [] []

/-- C6 witness graph: one security-named node with one importer, one import
and one export. -/
def c6Graph : DependencyGraph :=
  DependencyGraph.mk [("auth.ts", FileNode.mk "auth.ts" ["./a"] ["b.ts"] ["x"] FileCategory.other 10 none)]
    [] [] [] []

/-- C7 witness: `index.ts` importing `./lib`. -/
def c7IndexFile : FileInfo :=
  FileInfo.mk "/r/index.ts" "index.ts" ".ts" 20 (some "import x from \x22./lib\x22") none

/-- C7 witness: `lib.ts` with one export and no imports. -/
def c7LibFile : FileInfo :=
  FileInfo.mk "/r/lib.ts" "lib.ts" ".ts" 18 (some "export const y = 1") none

/-- Spec side (C4, amended): the same description with the full-text
fallback firing only when slices consume STRICTLY MORE than 80% of the
full-text tokens (`5 * sliceTokens > 4 * tokens`), which is what the code
implements. -/
def specBuildContextFileStrict (file : FileInfo) (reason : String) (remainingBudget : Int)
    (findings : List Finding := []) : Option ContextFile :=
  match loadContent file with
  | none => none
  | some content =>
    if content = "" then none
    else
      let tokens := estimateTokens content
      if file.size < SLICE_THRESHOLD ∧ (tokens : Int) < remainingBudget then
        some { path := file.relativePath, content := some content,
               reason := reason, priority := 50 }
      else
        let slices := extractSlices content file.relativePath
          { staticFindings := findings, includeExports := true,
            includeSecurity := true, includeDefinitions := true,
            maxTotalSize := min (remainingBudget * 4) 20000 }
        let reconstructed := reconstructSliceContent content slices
        let sliceContent := joinLines (reconstructed.map (fun s => s.content))
        let sliceTokens := estimateTokens sliceContent
        if (sliceTokens : Int) > remainingBudget then none
        else if 5 * sliceTokens > 4 * tokens ∧ (tokens : Int) < remainingBudget then
          some { path := file.relativePath, content := some content,
                 reason := reason, priority := 50 }
        else
          some { path := file.relativePath, slices := some reconstructed,
                 reason := reason ++ " (sliced)", priority := 50 }

/-- Spec side (C7): the invariant carried through the second pass of
`buildGraph` over the first-pass graph `g1`: keys are unchanged, every
node keeps the imports of its first-pass original, and every `importedBy`
entry is duplicate-free and backed by a resolved import specifier written
in the importing file. -/
def secondPassInv (g1 : DependencyGraph) (files : List (String × FileNode)) : Prop :=
  files.map Prod.fst = g1.files.map Prod.fst ∧
  ∀ e ∈ files, (∃ e0 ∈ g1.files, e0.1 = e.1 ∧ e.2.imports = e0.2.imports) ∧
    e.2.importedBy.Nodup ∧
    ∀ P ∈ e.2.importedBy, ∃ eP ∈ g1.files, eP.1 = P ∧
      ∃ spec ∈ eP.2.imports, resolveImportPath spec P g1 = some e.1

/-! # Theorems -/

/-! ## C1 — finding deduplication -/

theorem seenLookup_cons (e : String × Finding) (rest : List (String × Finding)) (k : String) :
    seenLookup (e :: rest) k = if e.1 = k then some e.2 else seenLookup rest k := by
  by_cases h : e.1 = k
  · unfold seenLookup
    rw [List.find?_cons_of_pos _ (by simpa using h), if_pos h]
    rfl
  · unfold seenLookup
    rw [List.find?_cons_of_neg _ (by simpa using h), if_neg h]

theorem seenSet_nil (k : String) (v : Finding) : seenSet [] k v = [(k, v)] := by
  simp [seenSet]

theorem seenSet_cons (e : String × Finding) (rest : List (String × Finding)) (k : String)
    (v : Finding) :
    seenSet (e :: rest) k v =
      (if e.1 = k then (k, v) else e) ::
        (if e.1 = k then rest.map (fun x => if x.1 = k then (k, v) else x) else seenSet rest k v) := by
  unfold seenSet
  by_cases he : e.1 = k
  · simp [he, List.any_cons]
  · simp only [List.any_cons, decide_eq_true_eq, he, decide_False, Bool.false_or, if_neg he]
    by_cases hr : rest.any (fun x => x.1 = k)
    · simp [hr, he]
    · simp [hr, he]

theorem seenLookup_map_other (rest : List (String × Finding)) (k k' : String) (v : Finding)
    (hk : k' ≠ k) :
    seenLookup (rest.map (fun x => if x.1 = k then (k, v) else x)) k' = seenLookup rest k' := by
  induction rest with
  | nil => rfl
  | cons e2 r2 ih2 =>
    simp only [List.map_cons]
    rw [seenLookup_cons, seenLookup_cons]
    by_cases h2 : e2.1 = k
    · rw [if_pos h2, if_neg (fun hh => hk hh.symm), if_neg (by rw [h2]; exact fun hh => hk hh.symm)]
      exact ih2
    · rw [if_neg h2]
      by_cases h3 : e2.1 = k'
      · rw [if_pos h3, if_pos h3]
      · rw [if_neg h3, if_neg h3]
        exact ih2

theorem seenLookup_seenSet (seen : List (String × Finding)) (k : String) (v : Finding)
    (k' : String) :
    seenLookup (seenSet seen k v) k' = if k' = k then some v else seenLookup seen k' := by
  induction seen with
  | nil =>
    rw [seenSet_nil, seenLookup_cons]
    by_cases hk : k' = k
    · simp [hk]
    · simp [hk, Ne.symm hk, seenLookup]
  | cons e rest ih =>
    rw [seenSet_cons]
    by_cases he : e.1 = k
    · simp only [he, if_true]
      rw [seenLookup_cons]
      by_cases hk : k' = k
      · simp [hk]
      · simp only [if_neg hk]
        rw [if_neg (fun hh : k = k' => hk hh.symm), seenLookup_cons, if_neg (by rw [he]; exact fun hh => hk hh.symm)]
        exact seenLookup_map_other rest k k' v hk
    · simp only [he, if_false]
      rw [seenLookup_cons, seenLookup_cons]
      by_cases h3 : e.1 = k'
      · rw [if_pos h3, if_pos h3, if_neg (fun hh : k' = k => he (h3.trans hh))]
      · rw [if_neg h3, if_neg h3]
        exact ih

theorem maxSeverityRank_nil : maxSeverityRank [] = 0 := rfl

theorem maxSeverityRank_cons (f : Finding) (rest : List Finding) :
    maxSeverityRank (f :: rest) = max (severityOrder f.severity) (maxSeverityRank rest) := rfl

theorem dedupGo_lookup (fs : List Finding) : ∀ (seen : List (String × Finding)) (k : String),
    seenLookup (dedupGo seen fs) k = dedupMergeOpt k (seenLookup seen k) fs := by
  induction fs with
  | nil => intro seen k; rfl
  | cons f rest ih =>
    intro seen k
    have hstep : dedupMergeOpt k (seenLookup seen k) (f :: rest) =
        dedupMergeOpt k
          (if findingKey f = k then
            (match seenLookup seen k with
             | none => some f
             | some a => some (pickHigher a f))
           else seenLookup seen k) rest := by
      unfold dedupMergeOpt
      rw [List.foldl_cons]
    rw [hstep]
    cases hl : seenLookup seen (findingKey f) with
    | none =>
      have hred : dedupGo seen (f :: rest) = dedupGo (seenSet seen (findingKey f) f) rest := by
        conv_lhs => unfold dedupGo
        rw [hl]
      rw [hred, ih (seenSet seen (findingKey f) f) k]
      congr 1
      rw [seenLookup_seenSet]
      by_cases hk : findingKey f = k
      · subst hk
        rw [if_pos rfl, if_pos rfl, hl]
      · rw [if_neg (fun hh : k = findingKey f => hk hh.symm), if_neg hk]
    | some existing =>
      by_cases hsev : severityOrder f.severity > severityOrder existing.severity
      · have hred : dedupGo seen (f :: rest) = dedupGo (seenSet seen (findingKey f) f) rest := by
          conv_lhs => unfold dedupGo
          rw [hl]
          simp [hsev]
        rw [hred, ih (seenSet seen (findingKey f) f) k]
        congr 1
        rw [seenLookup_seenSet]
        by_cases hk : findingKey f = k
        · subst hk
          rw [if_pos rfl, if_pos rfl, hl]
          simp [pickHigher, hsev]
        · rw [if_neg (fun hh : k = findingKey f => hk hh.symm), if_neg hk]
      · have hred : dedupGo seen (f :: rest) = dedupGo seen rest := by
          conv_lhs => unfold dedupGo
          rw [hl]
          simp [hsev]
        rw [hred, ih seen k]
        congr 1
        by_cases hk : findingKey f = k
        · subst hk
          rw [if_pos rfl, hl]
          simp [pickHigher, hsev]
        · rw [if_neg hk]

theorem dedupMergeOpt_some (k : String) (fs : List Finding) : ∀ (a : Finding),
    dedupMergeOpt k (some a) fs =
      some ((fs.filter (fun f => findingKey f = k)).foldl pickHigher a) := by
  induction fs with
  | nil => intro a; rfl
  | cons f rest ih =>
    intro a
    by_cases hk : findingKey f = k
    · have h1 : dedupMergeOpt k (some a) (f :: rest) = dedupMergeOpt k (some (pickHigher a f)) rest := by
        unfold dedupMergeOpt
        rw [List.foldl_cons, if_pos hk]
      rw [h1, ih (pickHigher a f)]
      congr 1
      rw [List.filter_cons, if_pos (by simpa using hk), List.foldl_cons]
    · have h1 : dedupMergeOpt k (some a) (f :: rest) = dedupMergeOpt k (some a) rest := by
        unfold dedupMergeOpt
        rw [List.foldl_cons, if_neg hk]
      rw [h1, ih a]
      congr 1
      rw [List.filter_cons, if_neg (by simpa using hk)]

theorem dedupMergeOpt_none (k : String) (fs : List Finding) :
    dedupMergeOpt k none fs =
      (match fs.filter (fun f => findingKey f = k) with
       | [] => none
       | x :: xs => some (xs.foldl pickHigher x)) := by
  induction fs with
  | nil => rfl
  | cons f rest ih =>
    by_cases hk : findingKey f = k
    · have h1 : dedupMergeOpt k none (f :: rest) = dedupMergeOpt k (some f) rest := by
        unfold dedupMergeOpt
        rw [List.foldl_cons, if_pos hk]
      rw [h1, dedupMergeOpt_some, List.filter_cons, if_pos (by simpa using hk)]
    · have h1 : dedupMergeOpt k none (f :: rest) = dedupMergeOpt k none rest := by
        unfold dedupMergeOpt
        rw [List.foldl_cons, if_neg hk]
      rw [h1, ih, List.filter_cons, if_neg (by simpa using hk)]

theorem maxSeverityRank_cons_le (b : Finding) (bs : List Finding) :
    severityOrder b.severity ≤ maxSeverityRank (b :: bs) := by
  rw [maxSeverityRank_cons]
  omega

theorem foldl_pickHigher_earliest (xs : List Finding) : ∀ (a : Finding),
    some (xs.foldl pickHigher a) = earliestMaxBySeverity (a :: xs) := by
  induction xs with
  | nil =>
    intro a
    unfold earliestMaxBySeverity
    rw [maxSeverityRank_cons, maxSeverityRank_nil]
    simp [List.filter_cons]
  | cons b bs ih =>
    intro a
    rw [List.foldl_cons, ih (pickHigher a b)]
    unfold earliestMaxBySeverity
    by_cases h : severityOrder b.severity > severityOrder a.severity
    · have hp : pickHigher a b = b := by unfold pickHigher; rw [if_pos h]
      rw [hp]
      have hm : maxSeverityRank (a :: b :: bs) = maxSeverityRank (b :: bs) := by
        simp only [maxSeverityRank_cons]
        omega
      rw [hm]
      have ha : ¬ (severityOrder a.severity = maxSeverityRank (b :: bs)) := by
        simp only [maxSeverityRank_cons]
        omega
      have hfil : (a :: b :: bs).filter
            (fun f => severityOrder f.severity = maxSeverityRank (b :: bs)) =
          (b :: bs).filter
            (fun f => severityOrder f.severity = maxSeverityRank (b :: bs)) := by
        rw [List.filter_cons, if_neg (by simpa using ha)]
      rw [hfil]
    · have hba : severityOrder b.severity ≤ severityOrder a.severity := Nat.le_of_not_lt h
      have hp : pickHigher a b = a := by unfold pickHigher; rw [if_neg h]
      rw [hp]
      have hm : maxSeverityRank (a :: b :: bs) = maxSeverityRank (a :: bs) := by
        simp only [maxSeverityRank_cons]
        omega
      rw [hm]
      by_cases hamax : severityOrder a.severity = maxSeverityRank (a :: bs)
      · have hfilL : (a :: bs).filter
              (fun f => severityOrder f.severity = maxSeverityRank (a :: bs)) =
            a :: bs.filter
              (fun f => severityOrder f.severity = maxSeverityRank (a :: bs)) := by
          rw [List.filter_cons, if_pos (by simpa using hamax)]
        have hfilR : (a :: b :: bs).filter
              (fun f => severityOrder f.severity = maxSeverityRank (a :: bs)) =
            a :: (b :: bs).filter
              (fun f => severityOrder f.severity = maxSeverityRank (a :: bs)) := by
          rw [List.filter_cons, if_pos (by simpa using hamax)]
        rw [hfilL, hfilR]
        simp
      · have hra : severityOrder a.severity ≤ maxSeverityRank (a :: bs) :=
          maxSeverityRank_cons_le a bs
        have hb : ¬ (severityOrder b.severity = maxSeverityRank (a :: bs)) := by
          omega
        have hfilL : (a :: bs).filter
              (fun f => severityOrder f.severity = maxSeverityRank (a :: bs)) =
            bs.filter
              (fun f => severityOrder f.severity = maxSeverityRank (a :: bs)) := by
          rw [List.filter_cons, if_neg (by simpa using hamax)]
        have hfilR : (a :: b :: bs).filter
              (fun f => severityOrder f.severity = maxSeverityRank (a :: bs)) =
            bs.filter
              (fun f => severityOrder f.severity = maxSeverityRank (a :: bs)) := by
          rw [List.filter_cons, if_neg (by simpa using hamax), List.filter_cons,
            if_neg (by simpa using hb)]
        rw [hfilL, hfilR]

theorem mem_seenSet (seen : List (String × Finding)) (k : String) (v : Finding) :
    ∀ e ∈ seenSet seen k v, e ∈ seen ∨ e = (k, v) := by
  intro e he
  unfold seenSet at he
  by_cases hmem : seen.any (fun x => x.1 = k)
  · rw [if_pos hmem] at he
    rcases List.mem_map.mp he with ⟨x, hx, hxe⟩
    by_cases hxk : x.1 = k
    · right
      rw [if_pos hxk] at hxe
      exact hxe.symm
    · left
      rw [if_neg hxk] at hxe
      rw [← hxe]
      exact hx
  · rw [if_neg hmem] at he
    rcases List.mem_append.mp he with h | h
    · left; exact h
    · right; simpa using h

theorem seenSet_keys (seen : List (String × Finding)) (k : String) (v : Finding) :
    (seenSet seen k v).map Prod.fst =
      if seen.any (fun e => e.1 = k) then seen.map Prod.fst
      else seen.map Prod.fst ++ [k] := by
  unfold seenSet
  by_cases hmem : seen.any (fun e => e.1 = k)
  · rw [if_pos hmem, if_pos hmem, List.map_map]
    apply List.map_congr_left
    intro x _
    by_cases hxk : x.1 = k
    · simp [hxk]
    · simp [hxk]
  · rw [if_neg hmem, if_neg hmem]
    simp

theorem dedupGo_wf (fs : List Finding) : ∀ (seen : List (String × Finding)),
    (∀ e ∈ seen, findingKey e.2 = e.1) →
    ∀ e ∈ dedupGo seen fs, findingKey e.2 = e.1 := by
  induction fs with
  | nil => intro seen h e he; exact h e he
  | cons f rest ih =>
    intro seen h
    have hset : ∀ e ∈ seenSet seen (findingKey f) f, findingKey e.2 = e.1 := by
      intro e he
      rcases mem_seenSet seen (findingKey f) f e he with h1 | h1
      · exact h e h1
      · rw [h1]
    cases hl : seenLookup seen (findingKey f) with
    | none =>
      have hred : dedupGo seen (f :: rest) = dedupGo (seenSet seen (findingKey f) f) rest := by
        conv_lhs => unfold dedupGo
        rw [hl]
      rw [hred]
      exact ih _ hset
    | some existing =>
      by_cases hsev : severityOrder f.severity > severityOrder existing.severity
      · have hred : dedupGo seen (f :: rest) = dedupGo (seenSet seen (findingKey f) f) rest := by
          conv_lhs => unfold dedupGo
          rw [hl]
          simp [hsev]
        rw [hred]
        exact ih _ hset
      · have hred : dedupGo seen (f :: rest) = dedupGo seen rest := by
          conv_lhs => unfold dedupGo
          rw [hl]
          simp [hsev]
        rw [hred]
        exact ih _ h

theorem seenSet_keys_nodup (seen : List (String × Finding)) (k : String) (v : Finding)
    (hnd : (seen.map Prod.fst).Nodup) : ((seenSet seen k v).map Prod.fst).Nodup := by
  rw [seenSet_keys]
  by_cases hmem : seen.any (fun e => e.1 = k)
  · rw [if_pos hmem]; exact hnd
  · rw [if_neg hmem]
    have hnotin : k ∉ seen.map Prod.fst := by
      intro hk
      rcases List.mem_map.mp hk with ⟨x, hx, hxk⟩
      have : seen.any (fun e => e.1 = k) := by
        rw [List.any_eq_true]
        exact ⟨x, hx, by simp [hxk]⟩
      exact hmem this
    simp [List.nodup_append, hnd, hnotin]

theorem dedupGo_keys_nodup (fs : List Finding) : ∀ (seen : List (String × Finding)),
    (seen.map Prod.fst).Nodup → ((dedupGo seen fs).map Prod.fst).Nodup := by
  induction fs with
  | nil => intro seen h; exact h
  | cons f rest ih =>
    intro seen h
    cases hl : seenLookup seen (findingKey f) with
    | none =>
      have hred : dedupGo seen (f :: rest) = dedupGo (seenSet seen (findingKey f) f) rest := by
        conv_lhs => unfold dedupGo
        rw [hl]
      rw [hred]
      exact ih _ (seenSet_keys_nodup seen _ f h)
    | some existing =>
      by_cases hsev : severityOrder f.severity > severityOrder existing.severity
      · have hred : dedupGo seen (f :: rest) = dedupGo (seenSet seen (findingKey f) f) rest := by
          conv_lhs => unfold dedupGo
          rw [hl]
          simp [hsev]
        rw [hred]
        exact ih _ (seenSet_keys_nodup seen _ f h)
      · have hred : dedupGo seen (f :: rest) = dedupGo seen rest := by
          conv_lhs => unfold dedupGo
          rw [hl]
          simp [hsev]
        rw [hred]
        exact ih _ h

theorem values_filter_of_wf (m : List (String × Finding)) (k : String) :
    (∀ e ∈ m, findingKey e.2 = e.1) → ((m.map Prod.fst).Nodup) →
    (m.map (fun e => e.2)).filter (fun f => findingKey f = k) = (seenLookup m k).toList := by
  induction m with
  | nil => intro _ _; rfl
  | cons e rest ih =>
    intro hwf hnd
    have hke : findingKey e.2 = e.1 := hwf e (List.mem_cons_self e rest)
    simp only [List.map_cons, List.filter_cons]
    rw [seenLookup_cons]
    by_cases h : e.1 = k
    · rw [if_pos h, if_pos (by simp [hke, h])]
      have hnotin : k ∉ rest.map Prod.fst := by
        have hcons : (e.1 :: rest.map Prod.fst).Nodup := by simpa using hnd
        rcases List.nodup_cons.mp hcons with ⟨hni, _⟩
        rw [← h]
        exact hni
      have hempty : (rest.map (fun e => e.2)).filter (fun f => findingKey f = k) = [] := by
        rw [List.filter_eq_nil_iff]
        intro f hf
        rcases List.mem_map.mp hf with ⟨x, hx, hfx⟩
        have hkx := hwf x (List.mem_cons_of_mem _ hx)
        rw [← hfx] at *
        simp only [decide_eq_true_eq]
        intro hfk
        apply hnotin
        rw [← hfk, hkx] at *
        exact List.mem_map.mpr ⟨x, hx, rfl⟩
      rw [hempty]
      rfl
    · rw [if_neg h, if_neg (by simp [hke, h])]
      exact ih (fun x hx => hwf x (List.mem_cons_of_mem _ hx))
        (by
          have hcons : (e.1 :: rest.map Prod.fst).Nodup := by simpa using hnd
          exact (List.nodup_cons.mp hcons).2)

theorem dedup_filter_characterization (fs : List Finding) (k : String) :
    (deduplicateFindings fs).filter (fun f => findingKey f = k) =
      (earliestMaxBySeverity (fs.filter (fun f => findingKey f = k))).toList := by
  unfold deduplicateFindings
  rw [values_filter_of_wf _ k (dedupGo_wf fs [] (by intro e he; cases he))
    (dedupGo_keys_nodup fs [] (by simp)), dedupGo_lookup fs [] k,
    show seenLookup [] k = none from rfl, dedupMergeOpt_none]
  cases hfil : fs.filter (fun f => findingKey f = k) with
  | nil => rfl
  | cons x xs =>
    show (some (xs.foldl pickHigher x)).toList = (earliestMaxBySeverity (x :: xs)).toList
    rw [foldl_pickHigher_earliest]

set_option maxRecDepth 4000 in
/-- C1: deduplication groups findings by `file:(line||0):normalizedMessage`;
within each key group the survivor is the earliest finding of maximal
severity rank; in particular the two SQL-injection findings collapse to the
error one. -/
theorem C1_dedup_survivor :
    (∀ (fs : List Finding) (k : String),
        (deduplicateFindings fs).filter (fun f => findingKey f = k) =
          (earliestMaxBySeverity (fs.filter (fun f => findingKey f = k))).toList) ∧
      deduplicateFindings
          [Finding.mk "r1" Severity.warning "f" (some 5) "SQL injection" none,
           Finding.mk "r2" Severity.error "f" (some 5) "sql injection!!" none] =
        [Finding.mk "r2" Severity.error "f" (some 5) "sql injection!!" none] := by
  constructor
  · exact dedup_filter_characterization
  · decide

set_option maxRecDepth 4000 in
/-- C1 witness: the universal part applied at the concrete pair. -/
theorem C1_dedup_survivor_witness :
    (deduplicateFindings
        [Finding.mk "r1" Severity.warning "f" (some 5) "SQL injection" none,
         Finding.mk "r2" Severity.error "f" (some 5) "sql injection!!" none]).filter
        (fun f => findingKey f = "f:5:sql injection") =
      (earliestMaxBySeverity
        (([Finding.mk "r1" Severity.warning "f" (some 5) "SQL injection" none,
           Finding.mk "r2" Severity.error "f" (some 5) "sql injection!!" none]).filter
          (fun f => findingKey f = "f:5:sql injection"))).toList :=
  C1_dedup_survivor.1
    [Finding.mk "r1" Severity.warning "f" (some 5) "SQL injection" none,
     Finding.mk "r2" Severity.error "f" (some 5) "sql injection!!" none]
    "f:5:sql injection"

theorem mem_sortSlicesInsert (a : CodeSlice) : ∀ (l : List CodeSlice) (x : CodeSlice),
    x ∈ sortSlicesInsert a l → x = a ∨ x ∈ l := by
  intro l
  induction l with
  | nil => intro x hx; simp [sortSlicesInsert] at hx; left; exact hx
  | cons b rest ih =>
    intro x hx
    unfold sortSlicesInsert at hx
    by_cases h : a.startLine ≤ b.startLine
    · rw [if_pos h] at hx
      rcases List.mem_cons.mp hx with h1 | h1
      · left; exact h1
      · right; exact h1
    · rw [if_neg h] at hx
      rcases List.mem_cons.mp hx with h1 | h1
      · right; rw [h1]; exact List.mem_cons_self b rest
      · rcases ih x h1 with h2 | h2
        · left; exact h2
        · right; exact List.mem_cons_of_mem b h2

theorem sortSlicesInsert_sorted (a : CodeSlice) : ∀ (l : List CodeSlice),
    List.Pairwise (fun s t => s.startLine ≤ t.startLine) l →
    List.Pairwise (fun s t => s.startLine ≤ t.startLine) (sortSlicesInsert a l) := by
  intro l
  induction l with
  | nil => intro _; simp [sortSlicesInsert]
  | cons b rest ih =>
    intro h
    rcases List.pairwise_cons.mp h with ⟨hb, hrest⟩
    unfold sortSlicesInsert
    by_cases hab : a.startLine ≤ b.startLine
    · rw [if_pos hab]
      refine List.pairwise_cons.mpr ⟨?_, h⟩
      intro x hx
      rcases List.mem_cons.mp hx with h1 | h1
      · rw [h1]; exact hab
      · exact Nat.le_trans hab (hb x h1)
    · rw [if_neg hab]
      refine List.pairwise_cons.mpr ⟨?_, ih hrest⟩
      intro x hx
      rcases mem_sortSlicesInsert a rest x hx with h1 | h1
      · rw [h1]; omega
      · exact hb x h1

theorem sortSlicesByStart_sorted : ∀ (l : List CodeSlice),
    List.Pairwise (fun s t => s.startLine ≤ t.startLine) (sortSlicesByStart l) := by
  intro l
  induction l with
  | nil => simp [sortSlicesByStart]
  | cons x xs ih => exact sortSlicesInsert_sorted x _ ih

theorem mergeGo_spec : ∀ (rest : List CodeSlice) (current : CodeSlice),
    List.Pairwise (fun s t => s.startLine ≤ t.startLine) (current :: rest) →
    List.Pairwise (fun s t => s.startLine ≤ t.startLine ∧ s.endLine + 1 < t.startLine)
        (mergeGo current rest) ∧
      ∀ t ∈ mergeGo current rest, current.startLine ≤ t.startLine := by
  intro rest
  induction rest with
  | nil =>
    intro current _
    constructor
    · simp [mergeGo]
    · intro t ht
      simp [mergeGo] at ht
      rw [ht]
  | cons next rest2 ih =>
    intro current h
    rcases List.pairwise_cons.mp h with ⟨hhead, htail⟩
    rcases List.pairwise_cons.mp htail with ⟨hnext, hrest2⟩
    by_cases hm : next.startLine ≤ current.endLine + 1
    · have hred : mergeGo current (next :: rest2) =
          mergeGo
            { current with
              endLine := max current.endLine next.endLine
              reason := combineReasons current.reason next.reason } rest2 := by
        conv_lhs => unfold mergeGo
        rw [if_pos hm]
      have hsorted : List.Pairwise (fun s t => s.startLine ≤ t.startLine)
          ({ current with
             endLine := max current.endLine next.endLine
             reason := combineReasons current.reason next.reason } :: rest2) := by
        refine List.pairwise_cons.mpr ⟨?_, hrest2⟩
        intro x hx
        exact hhead x (List.mem_cons_of_mem next hx)
      rcases ih _ hsorted with ⟨hp, hall⟩
      rw [hred]
      exact ⟨hp, fun t ht => hall t ht⟩
    · have hgap : current.endLine + 1 < next.startLine := Nat.lt_of_not_le hm
      have hred : mergeGo current (next :: rest2) = current :: mergeGo next rest2 := by
        conv_lhs => unfold mergeGo
        rw [if_neg hm]
      rcases ih next htail with ⟨hp, hall⟩
      rw [hred]
      constructor
      · refine List.pairwise_cons.mpr ⟨?_, hp⟩
        intro t ht
        have h1 : next.startLine ≤ t.startLine := hall t ht
        have h2 : current.startLine ≤ next.startLine := hhead next (List.mem_cons_self next rest2)
        exact ⟨Nat.le_trans h2 h1, by omega⟩
      · intro t ht
        rcases List.mem_cons.mp ht with h1 | h1
        · rw [h1]
        · have := hall t h1
          have h2 : current.startLine ≤ next.startLine := hhead next (List.mem_cons_self next rest2)
          omega

/-- C2: the merged slice list is sorted ascending by start line and its
slices are pairwise disjoint (any later slice starts at least two lines
after an earlier one ends, since touching or adjacent ranges were merged);
merging `[1,10]` and `[8,20]` yields exactly the single slice `[1,20]` with
the reason tags unioned. -/
theorem C2_merge_sorted_disjoint :
    (∀ (slices : List CodeSlice),
        List.Pairwise (fun s t => s.startLine ≤ t.startLine ∧ s.endLine + 1 < t.startLine)
          (mergeOverlappingSlices slices)) ∧
      mergeOverlappingSlices
          [CodeSlice.mk 1 10 "alpha" "A", CodeSlice.mk 8 20 "beta" "B"] =
        [CodeSlice.mk 1 20 "alpha" "A, B"] := by
  constructor
  · intro slices
    have hsort := sortSlicesByStart_sorted slices
    unfold mergeOverlappingSlices
    cases hs : sortSlicesByStart slices with
    | nil => simp
    | cons s rest =>
      rw [hs] at hsort
      exact (mergeGo_spec rest s hsort).1
  · decide

/-! ## C3 and C4 — buildContextFile -/

/-- C3: every slice the file-inclusion helper delivers has content equal,
character for character, to the join of lines `startLine … endLine` of the
loaded original text — re-sliced by line range, never concatenated from
candidate strings — including merged and formerly truncated candidates. -/
theorem C3_slices_resliced_from_original :
    ∀ (file : FileInfo) (reason : String) (rb : Int) (findings : List Finding)
      (cf : ContextFile) (sl : List CodeSlice),
      buildContextFile file reason rb findings = some cf →
      cf.slices = some sl →
      ∃ c, loadContent file = some c ∧
        ∀ s ∈ sl, s.content =
          joinLines (linesSlice (splitLines c) (s.startLine - 1) s.endLine) := by
  intro file reason rb findings cf sl hcf hsl
  unfold buildContextFile at hcf
  split at hcf
  · cases hcf
  · next content hload =>
    refine ⟨content, hload, ?_⟩
    split at hcf
    · cases hcf
    · simp only [] at hcf
      split at hcf
      · cases Option.some.inj hcf
        cases hsl
      · split at hcf
        · cases hcf
        · split at hcf
          · cases Option.some.inj hcf
            cases hsl
          · cases Option.some.inj hcf
            simp only [] at hsl
            cases Option.some.inj hsl
            intro s hs
            unfold reconstructSliceContent at hs
            rcases List.mem_map.mp hs with ⟨orig, _, horig⟩
            rw [← horig]

set_option maxRecDepth 4000 in
/-- C3 witness: the theorem applied to a concrete file whose inclusion takes
the sliced path (budget 9, one export block on lines 1–3). -/
theorem C3_slices_resliced_from_original_witness :
    ∃ c, loadContent c3InputFile = some c ∧
      ∀ s ∈ [CodeSlice.mk 1 3 "export function f() \x7b\nreturn 1\n\x7d" "Export"],
        s.content = joinLines (linesSlice (splitLines c) (s.startLine - 1) s.endLine) :=
  C3_slices_resliced_from_original c3InputFile "Entry point" 9 []
    (ContextFile.mk "f.ts" none
      (some [CodeSlice.mk 1 3 "export function f() \x7b\nreturn 1\n\x7d" "Export"])
      "Entry point (sliced)" 50)
    [CodeSlice.mk 1 3 "export function f() \x7b\nreturn 1\n\x7d" "Export"]
    (by decide) (by rfl)

set_option maxRecDepth 4000 in
/-- C4 counterexample: at a file whose slice-token estimate is exactly 80%
of the full-text estimate (8 vs 10 tokens), the code returns the sliced
form while the claimed at-least-80% rule would return full text. -/
theorem C4_claim_counterexample :
    buildContextFile c4InputFile "API route" 100 [] ≠
      specBuildContextFile c4InputFile "API route" 100 [] := by
  decide

/-- C4 amended: `buildContextFile` behaves exactly as specified with the
80% preference read strictly — full text is preferred only when slices
would consume strictly more than 80% of the full-text tokens. -/
theorem C4_amended_strict_preference :
    ∀ (file : FileInfo) (reason : String) (rb : Int) (findings : List Finding),
      buildContextFile file reason rb findings =
        specBuildContextFileStrict file reason rb findings := by
  intro file reason rb findings
  rfl

/-! ## C6 — priority scorer -/

/-- C6: every node priority stored by the scorer equals
`max 0 (base + importers×10 + min(imports×2,20) + min(exports×3,30)
+ 50·security − 20·(>50KB) − 30·(>100KB) − 40·test)` with base 100/80/70/0
by category; consequently every stored priority is nonnegative (the scorer
is a pure function of the graph by construction of the embedding). -/
theorem C6_priority_formula :
    ∀ (g : DependencyGraph) (pr : String) (nd : FileNode),
      (pr, nd) ∈ (calculatePriorities g).files →
      (nd.priority = some (max 0 (
        (match nd.category with
         | FileCategory.entry => (100 : Int)
         | FileCategory.config => 80
         | FileCategory.api => 70
         | _ => 0) +
        (nd.importedBy.length : Int) * 10 +
        min ((nd.imports.length : Int) * 2) 20 +
        min ((nd.exports.length : Int) * 3) 30 +
        (if depSecurityPathMatch pr then 50 else 0) -
        (if nd.size > 50000 then 20 else 0) -
        (if nd.size > 100000 then 30 else 0) -
        (if nd.category = FileCategory.test then 40 else 0))) ∧
      ∀ p ∈ nd.priority, 0 ≤ p) := by
  intro g pr nd hmem
  unfold calculatePriorities at hmem
  rcases List.mem_map.mp hmem with ⟨e, _, heq⟩
  cases heq
  constructor
  · show some (priorityScore e.1 e.2) = _
    congr 1
    unfold priorityScore
    cases hc : e.2.category <;> simp [hc]
  · intro p hp
    have hps : p = priorityScore e.1 e.2 := by
      have := hp
      simp only [Option.mem_def, Option.some.injEq] at this
      exact this.symm
    rw [hps]
    unfold priorityScore
    exact le_max_left 0 _

/-- C6 witness: the formula checked on a one-node graph whose node is
security-named with one importer, one import and one export (score 65). -/
theorem C6_priority_formula_witness :
    ((FileNode.mk "auth.ts" ["./a"] ["b.ts"] ["x"] FileCategory.other 10 (some 65)).priority =
      some (max 0 (
        (match (FileNode.mk "auth.ts" ["./a"] ["b.ts"] ["x"] FileCategory.other 10 (some 65)).category with
         | FileCategory.entry => (100 : Int)
         | FileCategory.config => 80
         | FileCategory.api => 70
         | _ => 0) +
        ((FileNode.mk "auth.ts" ["./a"] ["b.ts"] ["x"] FileCategory.other 10 (some 65)).importedBy.length : Int) * 10 +
        min (((FileNode.mk "auth.ts" ["./a"] ["b.ts"] ["x"] FileCategory.other 10 (some 65)).imports.length : Int) * 2) 20 +
        min (((FileNode.mk "auth.ts" ["./a"] ["b.ts"] ["x"] FileCategory.other 10 (some 65)).exports.length : Int) * 3) 30 +
        (if depSecurityPathMatch "auth.ts" then 50 else 0) -
        (if (FileNode.mk "auth.ts" ["./a"] ["b.ts"] ["x"] FileCategory.other 10 (some 65)).size > 50000 then 20 else 0) -
        (if (FileNode.mk "auth.ts" ["./a"] ["b.ts"] ["x"] FileCategory.other 10 (some 65)).size > 100000 then 30 else 0) -
        (if (FileNode.mk "auth.ts" ["./a"] ["b.ts"] ["x"] FileCategory.other 10 (some 65)).category = FileCategory.test then 40 else 0))) ∧
      ∀ p ∈ (FileNode.mk "auth.ts" ["./a"] ["b.ts"] ["x"] FileCategory.other 10 (some 65)).priority, 0 ≤ p) :=
  C6_priority_formula c6Graph "auth.ts"
    (FileNode.mk "auth.ts" ["./a"] ["b.ts"] ["x"] FileCategory.other 10 (some 65))
    (by decide)
theorem foldl_preserve {α β : Type} (P : β → Prop) (f : β → α → β) :
    ∀ (l : List α) (b : β), P b → (∀ b a, a ∈ l → P b → P (f b a)) → P (l.foldl f b) := by
  intro l
  induction l with
  | nil => intro b hb _; exact hb
  | cons a rest ih =>
    intro b hb hstep
    exact ih (f b a) (hstep b a (List.mem_cons_self a rest) hb)
      (fun b' a' ha' hb' => hstep b' a' (List.mem_cons_of_mem a ha') hb')

theorem mem_setAssoc (m : List (String × FileNode)) (k : String) (v : FileNode) :
    ∀ e ∈ setAssoc m k v, e ∈ m ∨ e = (k, v) := by
  intro e he
  unfold setAssoc at he
  by_cases hmem : m.any (fun x => x.1 = k)
  · rw [if_pos hmem] at he
    rcases List.mem_map.mp he with ⟨x, hx, hxe⟩
    by_cases hxk : x.1 = k
    · right
      rw [if_pos hxk] at hxe
      exact hxe.symm
    · left
      rw [if_neg hxk] at hxe
      rw [← hxe]
      exact hx
  · rw [if_neg hmem] at he
    rcases List.mem_append.mp he with h | h
    · left; exact h
    · right; simpa using h

theorem setAssoc_keys (m : List (String × FileNode)) (k : String) (v : FileNode) :
    (setAssoc m k v).map Prod.fst =
      if m.any (fun e => e.1 = k) then m.map Prod.fst else m.map Prod.fst ++ [k] := by
  unfold setAssoc
  by_cases hmem : m.any (fun e => e.1 = k)
  · rw [if_pos hmem, if_pos hmem, List.map_map]
    apply List.map_congr_left
    intro x _
    by_cases hxk : x.1 = k
    · simp [hxk]
    · simp [hxk]
  · rw [if_neg hmem, if_neg hmem]
    simp

theorem setAssoc_keys_nodup (m : List (String × FileNode)) (k : String) (v : FileNode)
    (hnd : (m.map Prod.fst).Nodup) : ((setAssoc m k v).map Prod.fst).Nodup := by
  rw [setAssoc_keys]
  by_cases hmem : m.any (fun e => e.1 = k)
  · rw [if_pos hmem]; exact hnd
  · rw [if_neg hmem]
    have hnotin : k ∉ m.map Prod.fst := by
      intro hk
      rcases List.mem_map.mp hk with ⟨x, hx, hxk⟩
      exact hmem (List.any_eq_true.mpr ⟨x, hx, by simp [hxk]⟩)
    simp [List.nodup_append, hnd, hnotin]

theorem buildGraphFirstPassStep_files (g : DependencyGraph) (file : FileInfo) :
    (buildGraphFirstPassStep g file).files =
      setAssoc g.files file.relativePath (buildGraphNode file) := rfl

theorem buildGraphNode_importedBy (file : FileInfo) :
    (buildGraphNode file).importedBy = [] := rfl

theorem buildGraphFirstPass_importedBy (files : List FileInfo) :
    ∀ e ∈ (buildGraphFirstPass files).files, e.2.importedBy = [] := by
  unfold buildGraphFirstPass
  refine foldl_preserve (fun g => ∀ e ∈ g.files, e.2.importedBy = []) buildGraphFirstPassStep
    files (DependencyGraph.mk [] [] [] [] []) ?_ ?_
  · intro e he; cases he
  · intro g file _ hg e he
    rw [buildGraphFirstPassStep_files] at he
    rcases mem_setAssoc g.files file.relativePath (buildGraphNode file) e he with h | h
    · exact hg e h
    · rw [h]
      rfl

theorem buildGraphFirstPass_keys_nodup (files : List FileInfo) :
    ((buildGraphFirstPass files).files.map Prod.fst).Nodup := by
  unfold buildGraphFirstPass
  refine foldl_preserve (fun g => (g.files.map Prod.fst).Nodup) buildGraphFirstPassStep
    files (DependencyGraph.mk [] [] [] [] []) ?_ ?_
  · simp
  · intro g file _ hg
    rw [buildGraphFirstPassStep_files]
    exact setAssoc_keys_nodup g.files file.relativePath (buildGraphNode file) hg

theorem updateImportedBy_keys (files : List (String × FileNode)) (t imp : String) :
    (updateImportedBy files t imp).map Prod.fst = files.map Prod.fst := by
  unfold updateImportedBy
  rw [List.map_map]
  apply List.map_congr_left
  intro e _
  by_cases het : e.1 = t
  · simp [het]
  · simp [het]

theorem updateImportedBy_inv (g1 : DependencyGraph) (files : List (String × FileNode))
    (t imp : String) (hinv : secondPassInv g1 files)
    (hjust : ∃ eImp ∈ g1.files, eImp.1 = imp ∧
      ∃ spec ∈ eImp.2.imports, resolveImportPath spec imp g1 = some t) :
    secondPassInv g1 (updateImportedBy files t imp) := by
  rcases hinv with ⟨hkeys, hmem⟩
  constructor
  · rw [updateImportedBy_keys]; exact hkeys
  · intro e' he'
    unfold updateImportedBy at he'
    rcases List.mem_map.mp he' with ⟨e, he, heq⟩
    rcases hmem e he with ⟨hex, hnd, hback⟩
    by_cases het : e.1 = t
    · rw [if_pos het] at heq
      by_cases hc : e.2.importedBy.contains imp
      · rw [if_pos hc] at heq
        rw [← heq]
        exact ⟨hex, hnd, hback⟩
    -- extended node
      · rw [if_neg hc] at heq
        have hnotin : imp ∉ e.2.importedBy := by
          intro hin
          exact hc (List.elem_eq_true_of_mem hin)
        rw [← heq]
        refine ⟨hex, ?_, ?_⟩
        · simp [List.nodup_append, hnd, hnotin]
        · intro P hP
          rcases List.mem_append.mp hP with h1 | h1
          · exact hback P h1
          · have hPimp : P = imp := by simpa using h1
            rcases hjust with ⟨eImp, heImp, heImpKey, spec, hspec, hres⟩
            subst hPimp
            refine ⟨eImp, heImp, heImpKey, spec, hspec, ?_⟩
            rw [hres, het]
    · rw [if_neg het] at heq
      rw [← heq]
      exact ⟨hex, hnd, hback⟩

theorem importsFold_inv (g1 : DependencyGraph) (entry : String × FileNode)
    (hentry : entry ∈ g1.files) :
    ∀ (specs : List String), (∀ s ∈ specs, s ∈ entry.2.imports) →
    ∀ (files : List (String × FileNode)), secondPassInv g1 files →
    secondPassInv g1 (specs.foldl (secondPassImportStep g1 entry.1) files) := by
  intro specs
  induction specs with
  | nil => intro _ files hinv; exact hinv
  | cons s rest ih =>
    intro hs files hinv
    rw [List.foldl_cons]
    refine ih (fun x hx => hs x (List.mem_cons_of_mem s hx)) _ ?_
    unfold secondPassImportStep
    cases hres : resolveImportPath s entry.1 g1 with
    | none => exact hinv
    | some rp =>
      show secondPassInv g1
        (if graphHas g1 rp = true then updateImportedBy files rp entry.1 else files)
      by_cases hhas : graphHas g1 rp = true
      · rw [if_pos hhas]
        exact updateImportedBy_inv g1 files rp entry.1 hinv
          ⟨entry, hentry, rfl, s, hs s (List.mem_cons_self s rest), hres⟩
      · rw [if_neg hhas]
        exact hinv

theorem secondPass_inv (g1 : DependencyGraph)
    (hIB : ∀ e ∈ g1.files, e.2.importedBy = []) :
    secondPassInv g1 (buildGraphSecondPass g1) := by
  unfold buildGraphSecondPass
  refine foldl_preserve (secondPassInv g1)
    (fun files entry => entry.2.imports.foldl (secondPassImportStep g1 entry.1) files)
    g1.files g1.files ?_ ?_
  · refine ⟨rfl, ?_⟩
    intro e he
    refine ⟨⟨e, he, rfl, rfl⟩, ?_, ?_⟩
    · rw [hIB e he]; exact List.nodup_nil
    · rw [hIB e he]; intro P hP; cases hP
  · intro files entry hentry hinv
    exact importsFold_inv g1 entry hentry entry.2.imports (fun _ hx => hx) files hinv

theorem assoc_nodup_unique (m : List (String × FileNode))
    (hnd : (m.map Prod.fst).Nodup) :
    ∀ e1 ∈ m, ∀ e2 ∈ m, e1.1 = e2.1 → e1 = e2 := by
  induction m with
  | nil => intro e1 h1; cases h1
  | cons a rest ih =>
    intro e1 h1 e2 h2 hk
    have hcons : (a.1 :: rest.map Prod.fst).Nodup := by simpa using hnd
    rcases List.nodup_cons.mp hcons with ⟨hni, hndrest⟩
    rcases List.mem_cons.mp h1 with h1a | h1r
    · rcases List.mem_cons.mp h2 with h2a | h2r
      · rw [h1a, h2a]
      · exfalso
        apply hni
        have hfst : e2.1 = a.1 := by rw [h1a] at hk; exact hk.symm
        exact List.mem_map.mpr ⟨e2, h2r, hfst⟩
    · rcases List.mem_cons.mp h2 with h2a | h2r
      · exfalso
        apply hni
        have hfst : e1.1 = a.1 := by rw [h2a] at hk; exact hk
        exact List.mem_map.mpr ⟨e1, h1r, hfst⟩
      · exact ih hndrest e1 h1r e2 h2r hk

theorem graphHas_congr (g g' : DependencyGraph)
    (h : g.files.map Prod.fst = g'.files.map Prod.fst) : graphHas g = graphHas g' := by
  funext p
  unfold graphHas
  have h1 : ∀ (m : List (String × FileNode)),
      (m.map Prod.fst).any (fun k => k = p) = m.any (fun e => e.1 = p) := by
    intro m
    induction m with
    | nil => rfl
    | cons a rest ih => simp [List.any_cons, ih]
  rw [← h1, h, h1]

theorem resolveImportPath_congr (spec fromFile : String) (g g' : DependencyGraph)
    (h : g.files.map Prod.fst = g'.files.map Prod.fst) :
    resolveImportPath spec fromFile g = resolveImportPath spec fromFile g' := by
  unfold resolveImportPath
  rw [graphHas_congr g g' h]
/-- C7: in every graph the builder produces, a path `P` in node `B`'s
`importedBy` is backed by an import specifier written in file `P` that
resolves to `B`'s path (duplicates suppressed), and a bare specifier —
starting with neither `.` nor `/` — never produces an edge. -/
theorem C7_importedBy_backed :
    (∀ (files : List FileInfo) (B : String) (nodeB : FileNode) (P : String),
        (B, nodeB) ∈ (buildGraph files).files → P ∈ nodeB.importedBy →
        nodeB.importedBy.Nodup ∧
        ∃ nodeP, (P, nodeP) ∈ (buildGraph files).files ∧
          ∃ spec ∈ nodeP.imports,
            resolveImportPath spec P (buildGraph files) = some B) ∧
    (∀ (spec fromFile : String) (g : DependencyGraph),
        strStartsWith spec "." = false → strStartsWith spec "/" = false →
        resolveImportPath spec fromFile g = none) := by
  constructor
  · intro files B nodeB P hmem hP
    have hIB := buildGraphFirstPass_importedBy files
    have hinv := secondPass_inv (buildGraphFirstPass files) hIB
    have hfiles : (buildGraph files).files =
        buildGraphSecondPass (buildGraphFirstPass files) := rfl
    rw [hfiles] at hmem
    rcases hinv with ⟨hkeys, hall⟩
    rcases hall (B, nodeB) hmem with ⟨_, hnd, hback⟩
    refine ⟨hnd, ?_⟩
    rcases hback P hP with ⟨eP, heP, hePk, spec, hspec, hres⟩
    have hPkeys : P ∈ (buildGraphSecondPass (buildGraphFirstPass files)).map Prod.fst := by
      rw [hkeys]
      exact List.mem_map.mpr ⟨eP, heP, hePk⟩
    rcases List.mem_map.mp hPkeys with ⟨e', he', he'k⟩
    obtain ⟨P', nodeP'⟩ := e'
    have hP' : P' = P := he'k
    subst hP'
    rcases hall (P', nodeP') he' with ⟨⟨e0, he0, he0k, he0imp⟩, _, _⟩
    have he0eP : e0 = eP :=
      assoc_nodup_unique (buildGraphFirstPass files).files
        (buildGraphFirstPass_keys_nodup files) e0 he0 eP heP (by rw [he0k, hePk])
    refine ⟨nodeP', by rw [hfiles]; exact he', spec, ?_, ?_⟩
    · have himp : nodeP'.imports = eP.2.imports := by
        rw [show nodeP'.imports = (P', nodeP').2.imports from rfl, he0imp, he0eP]
      rw [himp]
      exact hspec
    · rw [resolveImportPath_congr spec P' (buildGraph files) (buildGraphFirstPass files)
        (by rw [hfiles]; exact hkeys)]
      exact hres
  · intro spec fromFile g h1 h2
    unfold resolveImportPath
    simp [h1, h2]

set_option maxRecDepth 4000 in
/-- C7 witness: the invariant applied to the two-file scenario where
`index.ts` imports `./lib`, which resolves to `lib.ts`. -/
theorem C7_importedBy_backed_witness :
    (FileNode.mk "lib.ts" [] ["index.ts"] ["y"] FileCategory.other 18 none).importedBy.Nodup ∧
      ∃ nodeP, ("index.ts", nodeP) ∈ (buildGraph [c7IndexFile, c7LibFile]).files ∧
        ∃ spec ∈ nodeP.imports,
          resolveImportPath spec "index.ts" (buildGraph [c7IndexFile, c7LibFile]) =
            some "lib.ts" :=
  C7_importedBy_backed.1 [c7IndexFile, c7LibFile] "lib.ts"
    (FileNode.mk "lib.ts" [] ["index.ts"] ["y"] FileCategory.other 18 none) "index.ts"
    (by decide) (by decide)
theorem buildContextFile_tokens_le (file : FileInfo) (reason : String) (rb : Int)
    (findings : List Finding) (cf : ContextFile)
    (h : buildContextFile file reason rb findings = some cf) :
    (contextFileTokens cf : Int) ≤ rb := by
  unfold buildContextFile at h
  split at h
  · exact absurd h (by simp)
  case _ content heq =>
    split at h
    · exact absurd h (by simp)
    case _ hcne =>
      simp only [] at h
      split at h
      case _ hfit =>
        rw [Option.some.injEq] at h
        subst h
        simp only [contextFileTokens, contextFileText, if_neg hcne]
        exact le_of_lt hfit.2
      case _ hnofit =>
        split at h
        · exact absurd h (by simp)
        case _ hsle =>
          split at h
          case _ hpref =>
            rw [Option.some.injEq] at h
            subst h
            simp only [contextFileTokens, contextFileText, if_neg hcne]
            exact le_of_lt hpref.2
          case _ hnopref =>
            rw [Option.some.injEq] at h
            subst h
            simp only [contextFileTokens, contextFileText, contextFileSliceText]
            omega

theorem passFoldBCF_tokens_le {α : Type} (budget : Nat) (fileOf : α → Option FileInfo)
    (reasonOf : α → String) (findingsOf : α → List Finding)
    (guard : List ContextFile × Nat → FileInfo → Bool)
    (items : List α) (st : List ContextFile × Nat) (h : st.2 ≤ budget) :
    (passFoldBCF budget fileOf reasonOf findingsOf contextFileTokens guard items st).2 ≤ budget := by
  unfold passFoldBCF
  refine foldl_preserve (fun st => st.2 ≤ budget) _ items st h ?_
  intro b a _ hb
  split
  case _ file hfile =>
    split
    · split
      case _ cf hcf =>
        have := buildContextFile_tokens_le file (reasonOf a) ((budget : Int) - b.2)
          (findingsOf a) cf hcf
        simp only []
        omega
      · exact hb
    · exact hb
  · exact hb

theorem deepDiveStage4_tokens_le (ctxFiles : List FileInfo) (budget : Nat) :
    ∀ (nodes : List FileNode) (st : List ContextFile × Nat), st.2 ≤ budget →
      (deepDiveStage4 ctxFiles budget nodes st).2 ≤ budget := by
  intro nodes
  induction nodes with
  | nil => intro st h; exact h
  | cons node rest ih =>
    intro st h
    show (if 10 * st.2 ≥ 9 * budget then st
        else
          match ctxFiles.find? (fun f => f.relativePath = node.path) with
          | some file =>
            if st.1.any (fun cf => cf.path = file.relativePath) then
              deepDiveStage4 ctxFiles budget rest st
            else
              match buildContextFile file ("Priority score: " ++ priorityDisplay node)
                  ((budget : Int) - st.2) with
              | some cf => deepDiveStage4 ctxFiles budget rest (st.1 ++ [cf], st.2 + contextFileTokens cf)
              | none => deepDiveStage4 ctxFiles budget rest st
          | none => deepDiveStage4 ctxFiles budget rest st).2 ≤ budget
    split
    · exact h
    split
    case _ file hfile =>
      split
      · exact ih st h
      · split
        case _ cf hcf =>
          have := buildContextFile_tokens_le file _ ((budget : Int) - st.2) [] cf hcf
          refine ih _ ?_
          simp only []
          omega
        · exact ih st h
    · exact ih st h

theorem deepDiveStage4_stop (ctxFiles : List FileInfo) (budget : Nat) :
    ∀ (nodes : List FileNode) (st : List ContextFile × Nat), 10 * st.2 ≥ 9 * budget →
      deepDiveStage4 ctxFiles budget nodes st = st := by
  intro nodes
  cases nodes with
  | nil => intro st _; rfl
  | cons node rest =>
    intro st h
    show (if 10 * st.2 ≥ 9 * budget then st
        else
          match ctxFiles.find? (fun f => f.relativePath = node.path) with
          | some file =>
            if st.1.any (fun cf => cf.path = file.relativePath) then
              deepDiveStage4 ctxFiles budget rest st
            else
              match buildContextFile file ("Priority score: " ++ priorityDisplay node)
                  ((budget : Int) - st.2) with
              | some cf => deepDiveStage4 ctxFiles budget rest (st.1 ++ [cf], st.2 + contextFileTokens cf)
              | none => deepDiveStage4 ctxFiles budget rest st
          | none => deepDiveStage4 ctxFiles budget rest st) = st
    rw [if_pos h]

set_option maxRecDepth 8000 in
set_option maxHeartbeats 4000000 in
/-- C5: counterexample to the claim — with 146 preloaded 990-character files
the deep-dive pass admits a file while 35,960 tokens are used (still below the
36,000 line) and ends the final stage at 36,208 tokens, so the running
estimate does exceed 36,000 and part of the 10% reserve is spent. -/
theorem C5_claim_counterexample :
    ¬ (∀ (context : AnalysisContext) (graph : DependencyGraph)
        (staticFindings architectureFindings : List Finding),
        (buildDeepDiveContext context graph staticFindings
            architectureFindings).totalTokenEstimate ≤ 36000) := by
  intro hall
  have h1 := hall c5Ctx c5Graph [] []
  have h2 : (buildDeepDiveContext c5Ctx c5Graph [] []).totalTokenEstimate = 36208 := by decide
  omega

/-- C5 amended: the stage-4 guard refuses further admissions once the running
estimate reaches 90% of the 40,000-token budget, but a single admission made
below that line may carry the total past 36,000; what does hold for every
input is that the pass never exceeds the full 40,000-token budget, and that a
state already at or past the 90% line passes through stage 4 unchanged. -/
theorem C5_amended_reserve :
    (∀ (context : AnalysisContext) (graph : DependencyGraph)
        (staticFindings architectureFindings : List Finding),
        (buildDeepDiveContext context graph staticFindings
            architectureFindings).totalTokenEstimate ≤ 40000) ∧
    (∀ (ctxFiles : List FileInfo) (nodes : List FileNode)
        (st : List ContextFile × Nat), 10 * st.2 ≥ 9 * 40000 →
        deepDiveStage4 ctxFiles 40000 nodes st = st) := by
  constructor
  · intro context graph staticFindings architectureFindings
    show (deepDiveStage4 _ _ _ _).2 ≤ 40000
    refine deepDiveStage4_tokens_le _ _ _ _ ?_
    refine passFoldBCF_tokens_le _ _ _ _ _ _ _ ?_
    refine passFoldBCF_tokens_le _ _ _ _ _ _ _ ?_
    refine passFoldBCF_tokens_le _ _ _ _ _ _ _ ?_
    exact Nat.zero_le _
  · intro ctxFiles nodes st h
    exact deepDiveStage4_stop ctxFiles 40000 nodes st (by omega)

/-- C5 amended, witness: the bound applied to the 146-file scenario, and the
stage-4 stop applied at a state sitting exactly on the 36,000-token line. -/
theorem C5_amended_reserve_witness :
    (buildDeepDiveContext c5Ctx c5Graph [] []).totalTokenEstimate ≤ 40000 ∧
      deepDiveStage4 [c5File 0] 40000 [c5Node 0] ([], 36000) = ([], 36000) :=
  ⟨C5_amended_reserve.1 c5Ctx c5Graph [] [],
   C5_amended_reserve.2 [c5File 0] [c5Node 0] ([], 36000) (by decide)⟩
theorem strLength_pos (s : String) (h : s ≠ "") : 0 < s.length := by
  rcases Nat.eq_zero_or_pos s.length with h0 | h0
  · exfalso
    apply h
    cases s with
    | mk data =>
      have : data.length = 0 := h0
      have hd : data = [] := List.length_eq_zero.mp this
      rw [hd]
  · exact h0

theorem length_le_joinLines (s : String) : ∀ (ls : List String), s ∈ ls →
    s.length ≤ (joinLines ls).length := by
  intro ls
  induction ls with
  | nil => intro h; exact absurd h (List.not_mem_nil s)
  | cons a tail ih =>
    intro h
    cases tail with
    | nil =>
      rcases List.mem_cons.mp h with h1 | h1
      · rw [h1]; exact Nat.le_refl _
      · exact absurd h1 (List.not_mem_nil s)
    | cons b tl2 =>
      have hj : joinLines (a :: b :: tl2) = a ++ "\n" ++ joinLines (b :: tl2) := rfl
      rw [hj, String.length_append, String.length_append]
      rcases List.mem_cons.mp h with h1 | h1
      · rw [h1]; omega
      · have := ih h1
        omega

theorem mem_linesSlice (l : List String) (a b i : Nat) (h1 : a ≤ i) (h2 : i < b)
    (h3 : i < l.length) : l.get ⟨i, h3⟩ ∈ linesSlice l a b := by
  have hlen : i - a < (linesSlice l a b).length := by
    simp only [linesSlice, List.length_take, List.length_drop]
    omega
  have heq : (linesSlice l a b).get ⟨i - a, hlen⟩ = l.get ⟨i, h3⟩ := by
    show (linesSlice l a b)[i - a] = l[i]
    simp only [linesSlice, List.getElem_take, List.getElem_drop]
    congr 1
    omega
  rw [← heq]
  exact List.get_mem _ _ hlen

theorem extractContextSlice_content_pos (lines : List String) (i : Nat)
    (h3 : i < lines.length) (hne : lines.get ⟨i, h3⟩ ≠ "") (reason : String) :
    0 < (extractContextSlice lines (i + 1) reason).content.length := by
  have hmem : lines.get ⟨i, h3⟩ ∈
      linesSlice lines (max 1 (i + 1 - CONTEXT_LINES) - 1)
        (min lines.length (i + 1 + CONTEXT_LINES)) := by
    refine mem_linesSlice lines _ _ i ?_ ?_ h3
    · have : max 1 (i + 1 - CONTEXT_LINES) ≤ i + 1 := by
        simp only [CONTEXT_LINES]; omega
      omega
    · simp only [CONTEXT_LINES]; omega
  have hjoin := length_le_joinLines _ _ hmem
  have hslen : 0 < (lines.get ⟨i, h3⟩).length := strLength_pos _ hne
  unfold extractContextSlice
  simp only []
  split
  · dsimp only
    rw [String.length_append]
    have h17 : ("\n// ... truncated" : String).length = 17 := rfl
    omega
  · dsimp only
    omega
theorem defSliceGo_ge (s : Nat) : ∀ (rest : List String) (i : Nat) (bc : Int)
    (st : Bool) (prevEnd : Nat),
    min prevEnd (i + 1) ≤ defSliceGo s rest i bc st prevEnd := by
  intro rest
  induction rest with
  | nil => intro i bc st prevEnd; exact Nat.min_le_left _ _
  | cons line tail ih =>
    intro i bc st prevEnd
    rw [defSliceGo]
    split
    · omega
    split
    · omega
    · have := ih (i + 1) (line.data.foldl braceStep (bc, st)).1
        (line.data.foldl braceStep (bc, st)).2 (i + 1)
      omega

theorem extractDefinitionSlice_content_pos (lines : List String) (i : Nat)
    (h3 : i < lines.length) (hne : lines.get ⟨i, h3⟩ ≠ "") (sl : CodeSlice)
    (h : extractDefinitionSlice lines (i + 1) = some sl) : 0 < sl.content.length := by
  unfold extractDefinitionSlice at h
  simp only [] at h
  split at h
  · exact absurd h (by simp)
  case _ hle =>
    rw [Option.some.injEq] at h
    subst h
    have hend := defSliceGo_ge (i + 1) (lines.drop (i + 1 - 1)) (i + 1 - 1) 0 false (i + 1)
    have hmem : lines.get ⟨i, h3⟩ ∈ linesSlice lines (i + 1 - 1)
        (defSliceGo (i + 1) (lines.drop (i + 1 - 1)) (i + 1 - 1) 0 false (i + 1)) := by
      refine mem_linesSlice lines _ _ i ?_ ?_ h3
      · omega
      · omega
    have hjoin := length_le_joinLines _ _ hmem
    have hslen : 0 < (lines.get ⟨i, h3⟩).length := strLength_pos _ hne
    dsimp only
    omega
theorem slicesStage2_zero (lines : List String) :
    slicesStage2 lines 0 ([], 0) = ([], 0) := by
  unfold slicesStage2
  refine foldl_preserve (fun st => st = ([], 0)) _ lines.enum ([], 0) rfl ?_
  intro b p hp hb
  subst hb
  split
  case _ hsec =>
    have hp2 := List.mem_enum_iff_getElem?.mp hp
    rcases List.getElem?_eq_some_iff.mp hp2 with ⟨hlt, hgetEq⟩
    have hne : lines.get ⟨p.1, hlt⟩ ≠ "" := by
      intro he
      have : p.2 = "" := by rw [← hgetEq]; exact he
      rw [this] at hsec
      exact absurd hsec (by decide)
    have hpos := extractContextSlice_content_pos lines p.1 hlt hne "Security-sensitive code"
    simp only []
    split
    case _ hle =>
      exfalso
      try dsimp only at hle
      omega
    · rfl
  · rfl

theorem slicesStage3_zero (lines : List String) :
    slicesStage3 lines 0 ([], 0) = ([], 0) := by
  unfold slicesStage3
  refine foldl_preserve (fun st => st = ([], 0)) _ (extractExportSlices lines) ([], 0) rfl ?_
  intro b sl hsl hb
  subst hb
  rcases List.mem_filterMap.mp hsl with ⟨p, hp, heq⟩
  by_cases hexp : exportLineCheck p.2 = true
  · rw [if_pos hexp] at heq
    rcases Option.map_eq_some'.mp heq with ⟨sl0, hsl0, hmap⟩
    have hp2 := List.mem_enum_iff_getElem?.mp hp
    rcases List.getElem?_eq_some_iff.mp hp2 with ⟨hlt, hgetEq⟩
    have hne : lines.get ⟨p.1, hlt⟩ ≠ "" := by
      intro he
      have : p.2 = "" := by rw [← hgetEq]; exact he
      rw [this] at hexp
      exact absurd hexp (by decide)
    have hpos := extractDefinitionSlice_content_pos lines p.1 hlt hne sl0 hsl0
    have hcont : sl.content = sl0.content := by
      rw [← hmap]
    split
    case _ hle =>
      exfalso
      rw [hcont] at hle
      try dsimp only at hle
      omega
    · rfl
  · rw [if_neg hexp] at heq
    exact absurd heq (by simp)

theorem slicesStage4_zero (lines : List String) :
    slicesStage4 lines 0 ([], 0) = ([], 0) := by
  unfold slicesStage4
  refine foldl_preserve (fun st => st = ([], 0)) _ lines.enum ([], 0) rfl ?_
  intro b p hp hb
  subst hb
  split
  case _ himp =>
    have hp2 := List.mem_enum_iff_getElem?.mp hp
    rcases List.getElem?_eq_some_iff.mp hp2 with ⟨hlt, hgetEq⟩
    have hne : lines.get ⟨p.1, hlt⟩ ≠ "" := by
      intro he
      have : p.2 = "" := by rw [← hgetEq]; exact he
      rw [this] at himp
      exact absurd himp (by decide)
    split
    case _ sl hsl =>
      have hpos := extractDefinitionSlice_content_pos lines p.1 hlt hne sl hsl
      split
      case _ hle =>
        exfalso
        try dsimp only at hle
        omega
      · rfl
    · rfl
  · rfl

/-- C9: counterexample to the claim — with a zero cap but a static finding on
line 1 of an empty file, the flagged window has empty content, costs 0
characters, passes the `totalSize + length <= maxTotalSize` check, and is
returned: `extractSlices` yields one slice, not the empty list. -/
theorem C9_claim_counterexample :
    ¬ (∀ (content filePath : String) (opts : SliceOptions), opts.maxTotalSize = 0 →
        extractSlices content filePath opts = []) := by
  intro hall
  have h := hall "" "f" c9Options rfl
  exact absurd h (by decide)

/-- C9 amended: with a zero total-size cap and no static findings,
`extractSlices` returns the empty list for every content, path, and flag
combination: every security, export, or definition candidate contains its
(nonempty) matching line, so its content length is positive and the zero cap
rejects it. -/
theorem C9_amended_zero_cap_empty (content filePath : String) (opts : SliceOptions)
    (h1 : opts.staticFindings = []) (h2 : opts.maxTotalSize = 0) :
    extractSlices content filePath opts = [] := by
  unfold extractSlices
  simp only []
  rw [h1, h2]
  have hst1 : slicesStage1 (splitLines content) filePath 0 [] ([], 0) = ([], 0) := rfl
  rw [hst1]
  have hst2 : (if opts.includeSecurity then slicesStage2 (splitLines content) 0 ([], 0)
      else ([], 0)) = ([], 0) := by
    split
    · exact slicesStage2_zero _
    · rfl
  rw [hst2]
  have hst3 : (if opts.includeExports then slicesStage3 (splitLines content) 0 ([], 0)
      else ([], 0)) = ([], 0) := by
    split
    · exact slicesStage3_zero _
    · rfl
  rw [hst3]
  have hst4 : (if opts.includeDefinitions then slicesStage4 (splitLines content) 0 ([], 0)
      else ([], 0)) = ([], 0) := by
    split
    · exact slicesStage4_zero _
    · rfl
  rw [hst4]
  rfl

/-- C9 amended, witness: a file whose text would yield an export slice under
the default cap yields nothing under the zero cap. -/
theorem C9_amended_zero_cap_empty_witness :
    extractSlices "export const x = 1" "f" { maxTotalSize := 0 } = [] :=
  C9_amended_zero_cap_empty "export const x = 1" "f" { maxTotalSize := 0 } rfl rfl
theorem buildContextFile_some_path (file : FileInfo) (reason : String) (rb : Int)
    (findings : List Finding) (cf : ContextFile)
    (h : buildContextFile file reason rb findings = some cf) :
    cf.path = file.relativePath ∧ loadContent file ≠ none := by
  unfold buildContextFile at h
  split at h
  · exact absurd h (by simp)
  case _ content heq =>
    refine ⟨?_, by rw [heq]; simp⟩
    split at h
    · exact absurd h (by simp)
    · simp only [] at h
      split at h
      · rw [Option.some.injEq] at h
        subst h
        rfl
      · split at h
        · exact absurd h (by simp)
        · split at h
          · rw [Option.some.injEq] at h
            subst h
            rfl
          · rw [Option.some.injEq] at h
            subst h
            rfl

theorem passFoldBCF_paths {α : Type} (budget : Nat) (fileOf : α → Option FileInfo)
    (reasonOf : α → String) (findingsOf : α → List Finding)
    (tokensOf : ContextFile → Nat) (guard : List ContextFile × Nat → FileInfo → Bool)
    (items : List α) (st : List ContextFile × Nat) (ctxFiles : List FileInfo)
    (hfile : ∀ it ∈ items, ∀ file, fileOf it = some file → file ∈ ctxFiles)
    (hst : ∀ cf ∈ st.1, ∃ g ∈ ctxFiles, g.relativePath = cf.path ∧ loadContent g ≠ none) :
    ∀ cf ∈ (passFoldBCF budget fileOf reasonOf findingsOf tokensOf guard items st).1,
      ∃ g ∈ ctxFiles, g.relativePath = cf.path ∧ loadContent g ≠ none := by
  unfold passFoldBCF
  refine foldl_preserve
    (fun st => ∀ cf ∈ st.1, ∃ g ∈ ctxFiles, g.relativePath = cf.path ∧ loadContent g ≠ none)
    _ items st hst ?_
  intro b a ha hb cf hcf
  split at hcf
  case _ file hfa =>
    split at hcf
    · split at hcf
      case _ cf0 hcf0 =>
        rcases List.mem_append.mp hcf with hm | hm
        · exact hb cf hm
        · rcases List.mem_singleton.mp hm with rfl
          rcases buildContextFile_some_path file _ _ _ cf hcf0 with ⟨hp, hl⟩
          exact ⟨file, hfile a ha file hfa, hp.symm, hl⟩
      · exact hb cf hcf
    · exact hb cf hcf
  · exact hb cf hcf

theorem buildArchPackages_paths (ctxFiles : List FileInfo) (budget : Nat)
    (st : List ContextFile × Nat)
    (hst : ∀ cf ∈ st.1, ∃ g ∈ ctxFiles, g.relativePath = cf.path ∧ loadContent g ≠ none) :
    ∀ cf ∈ (buildArchPackages ctxFiles budget st).1,
      ∃ g ∈ ctxFiles, g.relativePath = cf.path ∧ loadContent g ≠ none := by
  unfold buildArchPackages
  refine foldl_preserve
    (fun st => ∀ cf ∈ st.1, ∃ g ∈ ctxFiles, g.relativePath = cf.path ∧ loadContent g ≠ none)
    _ _ st hst ?_
  intro b a _ hb cf hcf
  split at hcf
  case _ file hfind =>
    split at hcf
    case _ content hload =>
      split at hcf
      case _ hcne =>
        simp only [] at hcf
        split at hcf
        · rcases List.mem_append.mp hcf with hm | hm
          · exact hb cf hm
          · rcases List.mem_singleton.mp hm with rfl
            exact ⟨file, List.mem_of_find?_eq_some hfind, rfl, by rw [hload]; simp⟩
        · exact hb cf hcf
      · exact hb cf hcf
    · exact hb cf hcf
  · exact hb cf hcf

theorem buildArchReadme_paths (ctxFiles : List FileInfo) (budget : Nat)
    (st : List ContextFile × Nat)
    (hst : ∀ cf ∈ st.1, ∃ g ∈ ctxFiles, g.relativePath = cf.path ∧ loadContent g ≠ none) :
    ∀ cf ∈ (buildArchReadme ctxFiles budget st).1,
      ∃ g ∈ ctxFiles, g.relativePath = cf.path ∧ loadContent g ≠ none := by
  intro cf hcf
  unfold buildArchReadme at hcf
  split at hcf
  case _ readme hfind =>
    split at hcf
    case _ content hload =>
      split at hcf
      case _ hcne =>
        simp only [] at hcf
        split at hcf
        · rcases List.mem_append.mp hcf with hm | hm
          · exact hst cf hm
          · rcases List.mem_singleton.mp hm with rfl
            exact ⟨readme, List.mem_of_find?_eq_some hfind, rfl, by rw [hload]; simp⟩
        · exact hst cf hcf
      · exact hst cf hcf
    · exact hst cf hcf
  · exact hst cf hcf

theorem deepDiveStage4_paths (ctxFiles : List FileInfo) (budget : Nat) :
    ∀ (nodes : List FileNode) (st : List ContextFile × Nat),
      (∀ cf ∈ st.1, ∃ g ∈ ctxFiles, g.relativePath = cf.path ∧ loadContent g ≠ none) →
      ∀ cf ∈ (deepDiveStage4 ctxFiles budget nodes st).1,
        ∃ g ∈ ctxFiles, g.relativePath = cf.path ∧ loadContent g ≠ none := by
  intro nodes
  induction nodes with
  | nil => intro st hst; exact hst
  | cons node rest ih =>
    intro st hst cf hcf
    rw [deepDiveStage4] at hcf
    split at hcf
    · exact hst cf hcf
    · split at hcf
      case _ file hfind =>
        split at hcf
        · exact ih st hst cf hcf
        · split at hcf
          case _ cf0 hcf0 =>
            refine ih _ ?_ cf hcf
            intro cf1 hcf1
            rcases List.mem_append.mp hcf1 with hm | hm
            · exact hst cf1 hm
            · rcases List.mem_singleton.mp hm with rfl
              rcases buildContextFile_some_path file _ _ _ cf1 hcf0 with ⟨hp, hl⟩
              exact ⟨file, List.mem_of_find?_eq_some hfind, hp.symm, hl⟩
          · exact ih st hst cf hcf
      · exact ih st hst cf hcf

theorem extractMentionedFiles_subset (findings : List Finding) (allFiles : List FileInfo) :
    ∀ f ∈ extractMentionedFiles findings allFiles, f ∈ allFiles := by
  unfold extractMentionedFiles
  refine foldl_preserve (fun mentioned => ∀ f ∈ mentioned, f ∈ allFiles) _ findings []
    (by intro f hf; exact absurd hf (List.not_mem_nil f)) ?_
  intro b a _ hb f hf
  split at hf
  · split at hf
    case _ file hfind =>
      split at hf
      · exact hb f hf
      · rcases List.mem_append.mp hf with hm | hm
        · exact hb f hm
        · rcases List.mem_singleton.mp hm with rfl
          exact List.mem_of_find?_eq_some hfind
    · exact hb f hf
  · exact hb f hf

theorem find?_map_filterMap_subset {β : Type} (ctxFiles : List FileInfo)
    (paths : List β) (pred : β → FileInfo → Bool) :
    ∀ x ∈ ((paths.map (fun p => ctxFiles.find? (pred p))).filterMap id), x ∈ ctxFiles := by
  intro x hx
  rcases List.mem_filterMap.mp hx with ⟨a, ha, hax⟩
  rcases List.mem_map.mp ha with ⟨p, _, hfp⟩
  have : ctxFiles.find? (pred p) = some x := by rw [hfp]; exact hax
  exact List.mem_of_find?_eq_some this
theorem buildArchitectureContext_paths (ctx : AnalysisContext) (graph : DependencyGraph) :
    ∀ cf ∈ (buildArchitectureContext ctx graph).files,
      ∃ g ∈ ctx.files, g.relativePath = cf.path ∧ loadContent g ≠ none := by
  intro cf hcf
  unfold buildArchitectureContext at hcf
  simp only [] at hcf
  refine buildArchReadme_paths _ _ _ ?_ cf hcf
  refine passFoldBCF_paths _ _ _ _ _ _ _ _ _ ?_ ?_
  · intro it hit file hf
    rw [Option.some.injEq] at hf
    subst hf
    exact find?_map_filterMap_subset ctx.files graph.configFiles
      (fun p f => f.relativePath = p) it (List.mem_of_mem_take hit)
  refine passFoldBCF_paths _ _ _ _ _ _ _ _ _ ?_ ?_
  · intro it hit file hf
    rw [Option.some.injEq] at hf
    subst hf
    exact find?_map_filterMap_subset ctx.files graph.entryPoints
      (fun p f => f.relativePath = p) it (List.mem_of_mem_take hit)
  refine buildArchPackages_paths _ _ _ ?_
  intro cf1 hcf1
  exact absurd hcf1 (List.not_mem_nil cf1)

theorem buildDeepDiveContext_paths (ctx : AnalysisContext) (graph : DependencyGraph)
    (sf af : List Finding) :
    ∀ cf ∈ (buildDeepDiveContext ctx graph sf af).files,
      ∃ g ∈ ctx.files, g.relativePath = cf.path ∧ loadContent g ≠ none := by
  intro cf hcf
  unfold buildDeepDiveContext at hcf
  simp only [] at hcf
  refine deepDiveStage4_paths _ _ _ _ ?_ cf hcf
  refine passFoldBCF_paths _ _ _ _ _ _ _ _ _ ?_ ?_
  · intro it _ file hf
    exact List.mem_of_find?_eq_some hf
  refine passFoldBCF_paths _ _ _ _ _ _ _ _ _ ?_ ?_
  · intro it hit file hf
    rw [Option.some.injEq] at hf
    subst hf
    exact extractMentionedFiles_subset af ctx.files it hit
  refine passFoldBCF_paths _ _ _ _ _ _ _ _ _ ?_ ?_
  · intro it hit file hf
    rw [Option.some.injEq] at hf
    subst hf
    exact List.mem_of_mem_filter hit
  intro cf1 hcf1
  exact absurd hcf1 (List.not_mem_nil cf1)

theorem buildSecurityContext_paths (ctx : AnalysisContext) (graph : DependencyGraph) :
    ∀ cf ∈ (buildSecurityContext ctx graph).files,
      ∃ g ∈ ctx.files, g.relativePath = cf.path ∧ loadContent g ≠ none := by
  intro cf hcf
  unfold buildSecurityContext at hcf
  simp only [] at hcf
  refine passFoldBCF_paths _ _ _ _ _ _ _ _ _ ?_ ?_ cf hcf
  · intro it hit file hf
    rw [Option.some.injEq] at hf
    subst hf
    exact List.mem_of_mem_filter hit
  refine passFoldBCF_paths _ _ _ _ _ _ _ _ _ ?_ ?_
  · intro it hit file hf
    rw [Option.some.injEq] at hf
    subst hf
    exact List.mem_of_mem_filter hit
  refine passFoldBCF_paths _ _ _ _ _ _ _ _ _ ?_ ?_
  · intro it hit file hf
    rw [Option.some.injEq] at hf
    subst hf
    exact List.mem_of_mem_filter hit
  refine passFoldBCF_paths _ _ _ _ _ _ _ _ _ ?_ ?_
  · intro it hit file hf
    rw [Option.some.injEq] at hf
    subst hf
    exact find?_map_filterMap_subset ctx.files graph.apiFiles
      (fun p f => f.relativePath = p) it hit
  intro cf1 hcf1
  exact absurd hcf1 (List.not_mem_nil cf1)

/-- C10: a file with no preloaded content whose disk read fails is silently
omitted from every pass: `loadContent` yields `none` instead of raising,
`buildContextFile` then yields `none`, and no entry of any pass's
`ReviewContext` carries the failing file's path — every included entry's path
belongs to a context file whose load succeeded. -/
theorem C10_failed_load_silently_omitted :
    (∀ (file : FileInfo), file.content = none → file.diskContent = none →
        loadContent file = none) ∧
    (∀ (file : FileInfo) (reason : String) (rb : Int) (findings : List Finding),
        loadContent file = none →
        buildContextFile file reason rb findings = none) ∧
    (∀ (ctx : AnalysisContext) (graph : DependencyGraph) (p : String),
        (∀ g ∈ ctx.files, g.relativePath = p → loadContent g = none) →
        (∀ cf ∈ (buildArchitectureContext ctx graph).files, cf.path ≠ p) ∧
        (∀ (sf af : List Finding),
            ∀ cf ∈ (buildDeepDiveContext ctx graph sf af).files, cf.path ≠ p) ∧
        (∀ cf ∈ (buildSecurityContext ctx graph).files, cf.path ≠ p)) := by
  refine ⟨?_, ?_, ?_⟩
  · intro file h1 h2
    unfold loadContent
    rw [h1, h2]
  · intro file reason rb findings h
    unfold buildContextFile
    rw [h]
  · intro ctx graph p hfail
    refine ⟨?_, ?_, ?_⟩
    · intro cf hcf hp
      rcases buildArchitectureContext_paths ctx graph cf hcf with ⟨g, hg, hgp, hgl⟩
      exact hgl (hfail g hg (by rw [hgp, hp]))
    · intro sf af cf hcf hp
      rcases buildDeepDiveContext_paths ctx graph sf af cf hcf with ⟨g, hg, hgp, hgl⟩
      exact hgl (hfail g hg (by rw [hgp, hp]))
    · intro cf hcf hp
      rcases buildSecurityContext_paths ctx graph cf hcf with ⟨g, hg, hgp, hgl⟩
      exact hgl (hfail g hg (by rw [hgp, hp]))

/-- C10 witness: the failing file `p.ts` (no preload, failed read) produces a
`none` load and a `none` context entry, and the architecture pass over a
context holding only that file contains no entry with its path. -/
theorem C10_failed_load_silently_omitted_witness :
    loadContent c10FailFile = none ∧
      buildContextFile c10FailFile "Entry point" 15000 [] = none ∧
      (∀ cf ∈ (buildArchitectureContext c10Ctx c10Graph).files, cf.path ≠ "p.ts") :=
  ⟨C10_failed_load_silently_omitted.1 c10FailFile rfl rfl,
   C10_failed_load_silently_omitted.2.1 c10FailFile "Entry point" 15000 []
     (C10_failed_load_silently_omitted.1 c10FailFile rfl rfl),
   (C10_failed_load_silently_omitted.2.2 c10Ctx c10Graph "p.ts" (by decide)).1⟩
theorem jsOrJson_none (dflt : Json) : jsOrJson none dflt = dflt := rfl

theorem normalizeSeverity_some (s : String) :
    normalizeSeverity (some s) =
      (if strToLower s = "error" ∨ strToLower s = "warning" ∨ strToLower s = "info" ∨
          strToLower s = "hint" then strToLower s
       else if strToLower s = "critical" ∨ strToLower s = "high" then "error"
       else if strToLower s = "medium" then "warning"
       else if strToLower s = "low" then "info"
       else "info") := rfl

theorem mkNormalized_placeholders (f : Json) (sev : String) :
    (jGet f "ruleId" = none → (mkNormalized f sev).ruleId = Json.str "ai/unknown") ∧
    (jGet f "file" = none → (mkNormalized f sev).file = Json.str "unknown") ∧
    (jGet f "message" = none → (mkNormalized f sev).message = Json.str "No description provided") := by
  refine ⟨?_, ?_, ?_⟩ <;> intro h <;> simp only [mkNormalized, h, jsOrJson]

/-- C8: `parseAIResponse` is total by construction and never raises: a
response whose extracted candidate (trimmed, unwrapped from a code fence,
cut from first `\x7b` to last `\x7d`) fails `JSON.parse` yields the fallback
record whose summary carries the first 200 characters of the raw response; a
successful parse with a findings array maps each element through
normalization; severities `critical`/`high` map to `error`, `medium` to
`warning`, `low` to `info`, anything unrecognized or missing to `info` (the
result is always one of the four valid levels); missing
`ruleId`/`file`/`message` members are replaced by their fixed placeholders
instead of failing the parse. -/
theorem C8_parse_response_robust :
    (∀ (response : String), jsonParse (extractJsonCandidate response) = none →
        parseAIResponse response = parseFallback response ∧
        parseFallback response =
          { findings := []
            summary := some (.str ("Failed to parse AI response: " ++ response.take 200)) }) ∧
    (∀ (response : String) (j : Json) (fs : List Json) (nfs : List NormalizedFinding),
        jsonParse (extractJsonCandidate response) = some j → j ≠ Json.null →
        jGet j "findings" = some (Json.arr fs) →
        fs.mapM normalizeFindingJson = some nfs →
        parseAIResponse response = { findings := nfs, summary := jGet j "summary" }) ∧
    (∀ (s : String),
        ((strToLower s = "critical" ∨ strToLower s = "high") →
          normalizeSeverity (some s) = "error") ∧
        (strToLower s = "medium" → normalizeSeverity (some s) = "warning") ∧
        (strToLower s = "low" → normalizeSeverity (some s) = "info") ∧
        (strToLower s ≠ "error" → strToLower s ≠ "warning" → strToLower s ≠ "info" →
          strToLower s ≠ "hint" → strToLower s ≠ "critical" → strToLower s ≠ "high" →
          strToLower s ≠ "medium" → strToLower s ≠ "low" →
          normalizeSeverity (some s) = "info") ∧
        (normalizeSeverity (some s) = "error" ∨ normalizeSeverity (some s) = "warning" ∨
          normalizeSeverity (some s) = "info" ∨ normalizeSeverity (some s) = "hint")) ∧
    normalizeSeverity none = "info" ∧
    (∀ (f : Json) (nf : NormalizedFinding), normalizeFindingJson f = some nf →
        (jGet f "ruleId" = none → nf.ruleId = Json.str "ai/unknown") ∧
        (jGet f "file" = none → nf.file = Json.str "unknown") ∧
        (jGet f "message" = none → nf.message = Json.str "No description provided")) := by
  refine ⟨?_, ?_, ?_, rfl, ?_⟩
  · intro response h
    refine ⟨?_, rfl⟩
    unfold parseAIResponse
    rw [h]
  · intro response j fs nfs h1 hnull h3 h4
    unfold parseAIResponse
    rw [h1]
    cases j with
    | null => exact absurd rfl hnull
    | bool b => exact absurd h3 (by simp [jGet])
    | num n => exact absurd h3 (by simp [jGet])
    | str s => exact absurd h3 (by simp [jGet])
    | arr es => exact absurd h3 (by simp [jGet])
    | obj ms =>
      dsimp only
      rw [h3]
      dsimp only
      rw [h4]
  · intro s
    rw [normalizeSeverity_some]
    refine ⟨?_, ?_, ?_, ?_, ?_⟩
    · intro h
      rcases h with h | h <;> rw [h] <;> decide
    · intro h
      rw [h]
      decide
    · intro h
      rw [h]
      decide
    · intro h1 h2 h3 h4 h5 h6 h7 h8
      rw [if_neg (by tauto), if_neg (by tauto), if_neg h7, if_neg h8]
    · split
      case _ h =>
        tauto
      · split
        · tauto
        · split
          · tauto
          · split <;> tauto
  · intro f nf h
    unfold normalizeFindingJson at h
    split at h
    · exact absurd h (by simp)
    · split at h
      · rw [Option.some.injEq] at h
        subst h
        exact mkNormalized_placeholders f _
      · rw [Option.some.injEq] at h
        subst h
        exact mkNormalized_placeholders f _
      · exact absurd h (by simp)
      · rw [Option.some.injEq] at h
        subst h
        exact mkNormalized_placeholders f _
/-- C8 witness: a prose-free failure falls back with the 200-character
diagnostic; a fenced response with one `HIGH` finding parses, maps the
severity to `error`, and keeps the summary member. -/
theorem C8_parse_response_robust_witness :
    parseAIResponse "oops" =
      { findings := []
        summary := some (.str ("Failed to parse AI response: " ++ ("oops" : String).take 200)) } ∧
    parseAIResponse
        "Found 1 issue. ```json\n\x7b\"findings\": [\x7b\"severity\": \"HIGH\"\x7d], \"summary\": \"ok\"\x7d\n``` done" =
      { findings := [mkNormalized (Json.obj [("severity", Json.str "HIGH")]) "error"]
        summary := jGet (Json.obj [("findings", Json.arr [Json.obj [("severity", Json.str "HIGH")]]),
          ("summary", Json.str "ok")]) "summary" } ∧
    normalizeSeverity (some "HIGH") = "error" ∧
    normalizeSeverity (some "banana") = "info" :=
  ⟨((C8_parse_response_robust.1 "oops" (by rfl)).1).trans
      (C8_parse_response_robust.1 "oops" (by rfl)).2,
   C8_parse_response_robust.2.1
     "Found 1 issue. ```json\n\x7b\"findings\": [\x7b\"severity\": \"HIGH\"\x7d], \"summary\": \"ok\"\x7d\n``` done"
     (Json.obj [("findings", Json.arr [Json.obj [("severity", Json.str "HIGH")]]),
       ("summary", Json.str "ok")])
     [Json.obj [("severity", Json.str "HIGH")]]
     [mkNormalized (Json.obj [("severity", Json.str "HIGH")]) "error"]
     (by rfl) (fun h => nomatch h) (by rfl) (by rfl),
   (C8_parse_response_robust.2.2.1 "HIGH").1 (Or.inr (by rfl)),
   (C8_parse_response_robust.2.2.1 "banana").2.2.2.1 (by decide) (by decide) (by decide)
     (by decide) (by decide) (by decide) (by decide) (by decide)⟩
